import Mathlib

/-!
Shallow embedding of the NetBird client connection engine pieces that the
claims concern: the DNS server update pipeline (`DefaultServer` in
`client/internal/dns`), the upstream resolver failure/deactivation machinery
(`client/internal/dns/upstream.go`), and the supervisor retry loop
(`client/internal/connect.go`).

State is passed explicitly; OS-level side effects (mux registrations, host
DNS application, upstream queries, status changes) are recorded as explicit
event traces so that claims about "no OS-level calls" are statable.
-/

namespace NetBird

/-! ## Data model: the `nbdns` package types.

The `nbdns` (github.com/netbirdio/netbird/dns) package itself is not among the
provided source files; these record/config shapes are modelled from the spec
(custom zones with records keyed by (name, class, type); nameserver groups
with a domain list and a primary flag; a service-enable switch). -/

/-- Modelled from the spec: a DNS record in a custom zone; the key fields are
name, class and type. `RRType` is the numeric record type (the Go field is
named `Type`, which Lean reserves). -/
structure SimpleRecord where
  Name : String
  RRType : Nat
  Class : String
  TTL : Nat
  RData : String
deriving DecidableEq, Repr

/-- Modelled from the spec: a custom zone is a domain with a record list. -/
structure CustomZone where
  Domain : String
  Records : List SimpleRecord
deriving DecidableEq, Repr

/-- Modelled from the spec: nameserver transport type; the peer supports only
UDP nameservers. -/
inductive NSType where
  | UDPNameServerType
  | TCPNameServerType
deriving DecidableEq, Repr

/-- Modelled from the spec: one upstream nameserver (IP, transport type, port). -/
structure NameServer where
  IP : String
  NSTy : NSType
  Port : Nat
deriving DecidableEq, Repr

/-- Modelled from the spec: a nameserver group with domain scoping and a
"primary" flag (a primary group claims the DNS root zone). -/
structure NameServerGroup where
  NameServers : List NameServer
  Primary : Bool
  Domains : List String
deriving DecidableEq, Repr

/-- Modelled from the spec: the DNS part of a NetworkMap update
(`nbdns.Config`): custom zones, nameserver groups, and a service switch. -/
structure Config where
  ServiceEnable : Bool
  CustomZones : List CustomZone
  NameServerGroups : List NameServerGroup
deriving DecidableEq, Repr

/-- The DNS root zone, `nbdns.RootZone`. -/
def RootZone : String := "."

/-- `nbdns.DefaultClass`, the only record class the peer accepts. -/
def DefaultClass : String := "in"

/-- `dns.ClassINET` from the miekg/dns library. -/
def ClassINET : Nat := 1

/-- `defaultPort`, the standard DNS port used by the service. -/
def defaultPort : Nat := 53

/-! ## Handlers and OS-level events -/

/-- A mux handler: either the local resolver or an upstream resolver created
by `newUpstreamResolver`. Upstream handlers carry a creation id (so distinct
`newUpstreamResolver` calls yield distinct handlers) and their upstream
server list. -/
inductive Handler where
  | localR
  | upstream (id : Nat) (servers : List String)
deriving DecidableEq, Repr

/-- The upstream server list of a handler (empty for the local resolver). -/
def Handler.servers : Handler → List String
  | .localR => []
  | .upstream _ s => s

/-- Host DNS config, one entry per domain (`HostDNSConfig.Domains` element). -/
structure DomainConfig where
  Disabled : Bool
  Domain : String
  MatchOnly : Bool
deriving DecidableEq, Repr

/-- The computed host DNS configuration handed to the host manager. -/
structure HostDNSConfig where
  Domains : List DomainConfig
  RouteAll : Bool
  ServerIP : String
  ServerPort : Nat
deriving DecidableEq, Repr

/-- OS-level side effects of the DNS server, recorded as a trace: service mux
(de)registrations, handler stops, listener start/stop, and host DNS
application. -/
inductive DNSEvent where
  | registerMux (domain : String) (h : Handler)
  | deregisterMux (domain : String)
  | stopHandler (h : Handler)
  | serviceListen
  | serviceStop
  | applyHost (cfg : HostDNSConfig)
deriving DecidableEq, Repr

/-! ## Association-list helpers (Go `map[string]T` with insert-overwrite) -/

/-- Lookup in an association list (Go map read). -/
def lookupA {α : Type} (k : String) : List (String × α) → Option α
  | [] => none
  | (k', v) :: t => if k' = k then some v else lookupA k t

/-- Insert with overwrite in an association list (Go map write); keeps at most
one binding per key when the input has at most one. -/
def insertA {α : Type} (k : String) (v : α) : List (String × α) → List (String × α)
  | [] => [(k, v)]
  | (k', v') :: t => if k' = k then (k, v) :: t else (k', v') :: insertA k v t

/-! ## The `DefaultServer` state -/

/-- The `DefaultServer` fields the update pipeline touches. `ctxDone` models a
cancelled `s.ctx`; `hostManagerInit` models `s.hostManager != nil`;
`nextHandlerId` supplies fresh ids for `newUpstreamResolver`. -/
structure DefaultServer where
  ctxDone : Bool
  dnsMuxMap : List (String × Handler)
  localRecords : List (String × SimpleRecord)
  hostManagerInit : Bool
  supportCustomPort : Bool
  runtimeIP : String
  runtimePort : Nat
  updateSerial : Nat
  previousConfigHash : Nat
  currentConfig : HostDNSConfig
  permanent : Bool
  hostsDnsList : List String
  nextHandlerId : Nat
deriving DecidableEq, Repr

/-! ## Structural hashing

`UpdateDNSServer` hashes the incoming config with the external
`hashstructure` library; only hash equality is ever consulted, so the hash is
modelled as a concrete deterministic structural hash (hash errors, which the
code only logs, are not modelled). -/

/-- Mix step for the structural hash. -/
def mixH (a b : Nat) : Nat := a * 1000003 + b + 1

/-- Structural hash of a string. -/
def hashStr (s : String) : Nat := s.data.foldl (fun a c => mixH a c.toNat) 7

/-- Structural hash of a record. -/
def hashRecord (r : SimpleRecord) : Nat :=
  mixH (mixH (mixH (mixH (hashStr r.Name) r.RRType) (hashStr r.Class)) r.TTL) (hashStr r.RData)

/-- Structural hash of a custom zone. -/
def hashZone (z : CustomZone) : Nat :=
  mixH (hashStr z.Domain) (z.Records.foldl (fun a r => mixH a (hashRecord r)) 11)

/-- Structural hash of a nameserver group. -/
def hashGroup (g : NameServerGroup) : Nat :=
  mixH (mixH (g.NameServers.foldl
      (fun a ns => mixH a (mixH (hashStr ns.IP) (mixH (if ns.NSTy = NSType.UDPNameServerType then 0 else 1) ns.Port))) 13)
    (if g.Primary then 1 else 0))
    (g.Domains.foldl (fun a d => mixH a (hashStr d)) 17)

/-- Structural hash of the whole DNS config, modelling `hashstructure.Hash`
(a `uint64`; only hash equality is ever consulted). -/
def hashConfig (c : Config) : Nat :=
  mixH (mixH (if c.ServiceEnable then 1 else 0)
      (c.CustomZones.foldl (fun a z => mixH a (hashZone z)) 19))
    (c.NameServerGroups.foldl (fun a g => mixH a (hashGroup g)) 23) % 18446744073709551616

/-! ## Building the candidate handler set -/

/-- A `muxUpdate`: one candidate (domain, handler) registration. -/
structure MuxUpdate where
  domain : String
  handler : Handler
deriving DecidableEq, Repr

/-- Modelled from the spec: `buildRecordKey` (not among the source files)
builds the local-resolver key from (name, class, type). -/
def buildRecordKey (name : String) (cls : Nat) (ty : Nat) : String :=
  name ++ "#" ++ toString cls ++ "#" ++ toString ty

/-- The record loop inside `buildLocalHandlerUpdate`: reject records whose
class is not `DefaultClass`, key the rest into the local-record map. -/
def buildRecords (acc : List (String × SimpleRecord)) :
    List SimpleRecord → Except String (List (String × SimpleRecord))
  | [] => .ok acc
  | r :: rest =>
    if r.Class ≠ DefaultClass then
      .error ("received an invalid class type: " ++ r.Class)
    else
      buildRecords (insertA (buildRecordKey r.Name ClassINET r.RRType) r acc) rest

/-- The zone loop of `DefaultServer.buildLocalHandlerUpdate`: an empty record
list rejects the whole update; otherwise the zone maps to the local resolver
and its records are keyed into the local-record map. -/
def buildLocalGo (mus : List MuxUpdate) (recs : List (String × SimpleRecord)) :
    List CustomZone → Except String (List MuxUpdate × List (String × SimpleRecord))
  | [] => .ok (mus, recs)
  | z :: rest =>
    if z.Records.isEmpty then
      .error "received an empty list of records"
    else
      match buildRecords recs z.Records with
      | .error e => .error e
      | .ok recs' => buildLocalGo (mus ++ [⟨z.Domain, Handler.localR⟩]) recs' rest

/-- `DefaultServer.buildLocalHandlerUpdate`. -/
def buildLocalHandlerUpdate (zones : List CustomZone) :
    Except String (List MuxUpdate × List (String × SimpleRecord)) :=
  buildLocalGo [] [] zones

/-- `getNSHostPort`: format a nameserver as `ip:port`. -/
def getNSHostPort (ns : NameServer) : String := ns.IP ++ ":" ++ toString ns.Port

/-- The nameserver loop of `buildUpstreamHandlerUpdate`: non-UDP nameservers
are skipped, the UDP ones become `ip:port` upstream entries. -/
def udpServers (l : List NameServer) : List String :=
  (l.filter (fun ns => ns.NSTy = NSType.UDPNameServerType)).map getNSHostPort

/-- The group loop of `DefaultServer.buildUpstreamHandlerUpdate`: groups with
an empty nameserver list are skipped; a fresh upstream resolver is created
per group; groups whose nameservers are all non-UDP are dropped (handler
stopped before registration, which is not OS-observable); a primary group
claims the root zone; a non-primary group needs a non-empty domain list with
no empty element, else the whole update errors. Returns the updates and the
next fresh handler id. -/
def buildUpstreamGo (mus : List MuxUpdate) (nid : Nat) :
    List NameServerGroup → Except String (List MuxUpdate × Nat)
  | [] => .ok (mus, nid)
  | g :: rest =>
    if g.NameServers.isEmpty then
      buildUpstreamGo mus nid rest
    else
      let servers := udpServers g.NameServers
      if servers.isEmpty then
        buildUpstreamGo mus (nid + 1) rest
      else if g.Primary then
        buildUpstreamGo (mus ++ [⟨RootZone, Handler.upstream nid servers⟩]) (nid + 1) rest
      else if g.Domains.isEmpty then
        .error "received a non primary nameserver group with an empty domain list"
      else if "" ∈ g.Domains then
        .error "received a nameserver group with an empty domain element"
      else
        buildUpstreamGo (mus ++ g.Domains.map (fun d => ⟨d, Handler.upstream nid servers⟩))
          (nid + 1) rest

/-- `DefaultServer.buildUpstreamHandlerUpdate`, threading the fresh-id
counter. -/
def buildUpstreamHandlerUpdate (nid : Nat) (groups : List NameServerGroup) :
    Except String (List MuxUpdate × Nat) :=
  buildUpstreamGo [] nid groups

/-! ## The mux update -/

/-- Format one host DNS address for `addHostRootZone`: IPv6 addresses (the
ones containing a colon) are bracketed; port 53 is appended. `netip.ParseAddr`
is modelled as succeeding (its failure branch only logs and leaves a blank
entry). -/
def formatHostNS (ua : String) : String :=
  if ua.any (fun c => c = ':') then "[" ++ ua ++ "]" ++ ":53" else ua ++ ":53"

/-- The upstream server list `DefaultServer.addHostRootZone` builds from the
host's own DNS addresses. -/
def hostRootServers (l : List String) : List String := l.map formatHostNS

/-- First loop of `DefaultServer.updateMux`: register every candidate with
the service mux, record it in the fresh map, and stop any prior handler for
the same domain (looked up in the old, unchanged map). -/
def muxFirstLoop (oldMap : List (String × Handler)) (newMap : List (String × Handler))
    (evs : List DNSEvent) :
    List MuxUpdate → List (String × Handler) × List DNSEvent
  | [] => (newMap, evs)
  | u :: rest =>
    let evs := evs ++ [DNSEvent.registerMux u.domain u.handler] ++
      (match lookupA u.domain oldMap with
       | some h => [DNSEvent.stopHandler h]
       | none => [])
    muxFirstLoop oldMap (insertA u.domain u.handler newMap) evs rest

/-- Second loop of `DefaultServer.updateMux`: every old entry absent from the
candidate map is stopped and deregistered — except the root zone when the
candidate set has no root entry, where a host-fallback root upstream is
registered first (`addHostRootZone`) and the root zone is not deregistered. -/
def muxSecondLoop (newMap : List (String × Handler)) (containsRoot : Bool)
    (hostList : List String) (nid : Nat) (evs : List DNSEvent) :
    List (String × Handler) → List DNSEvent × Nat
  | [] => (evs, nid)
  | (k, h) :: rest =>
    if (lookupA k newMap).isSome then
      muxSecondLoop newMap containsRoot hostList nid evs rest
    else if ¬containsRoot ∧ k = RootZone then
      muxSecondLoop newMap containsRoot hostList (nid + 1)
        (evs ++ [DNSEvent.registerMux RootZone (Handler.upstream nid (hostRootServers hostList)),
          DNSEvent.stopHandler h]) rest
    else
      muxSecondLoop newMap containsRoot hostList nid
        (evs ++ [DNSEvent.stopHandler h, DNSEvent.deregisterMux k]) rest

/-- `DefaultServer.updateMux`. -/
def updateMux (s : DefaultServer) (mus : List MuxUpdate) : DefaultServer × List DNSEvent :=
  let containsRoot := mus.any (fun u => u.domain = RootZone)
  let fl := muxFirstLoop s.dnsMuxMap [] [] mus
  let sl := muxSecondLoop fl.1 containsRoot s.hostsDnsList s.nextHandlerId [] s.dnsMuxMap
  ({ s with dnsMuxMap := fl.1, nextHandlerId := sl.2 }, fl.2 ++ sl.1)

/-! ## Host DNS conversion and applyConfiguration -/

/-- Modelled from the spec: `dnsConfigToHostDNSConfig` (not among the source
files) converts the management DNS config into the host DNS config: each
custom zone becomes a search-domain entry, each nameserver-group domain a
match-only entry, and RouteAll is set iff some group is primary. -/
def dnsConfigToHostDNSConfig (cfg : Config) (ip : String) (port : Nat) : HostDNSConfig :=
  { Domains := cfg.CustomZones.map (fun z => ⟨false, z.Domain, false⟩) ++
      cfg.NameServerGroups.foldr
        (fun g acc => g.Domains.map (fun d => (⟨false, d, true⟩ : DomainConfig)) ++ acc) []
    RouteAll := cfg.NameServerGroups.any (fun g => g.Primary)
    ServerIP := ip
    ServerPort := port }

/-- Result of an update call: the (possibly unchanged) server state, the Go
error result, and the OS-level event trace. -/
structure UpdateResult where
  srv : DefaultServer
  res : Except String Unit
  events : List DNSEvent
deriving Repr

/-- Whether a Go result is an error. -/
def isErr : Except String Unit → Bool
  | .error _ => true
  | .ok _ => false

/-- `DefaultServer.applyConfiguration`: start or stop the listener per the
service switch, build the candidate handler set (rejecting bad zones and
groups), apply the mux diff, replace the local-resolver records, recompute
the host config (downgrading RouteAll when the custom port is unsupported),
and apply it to the host. Error paths leave the server fields unchanged. -/
def applyConfiguration (s : DefaultServer) (update : Config) : UpdateResult :=
  let evs0 := if update.ServiceEnable then [DNSEvent.serviceListen]
    else if ¬s.permanent then [DNSEvent.serviceStop] else []
  match buildLocalHandlerUpdate update.CustomZones with
  | .error e => ⟨s, .error ("not applying dns update, error: " ++ e), evs0⟩
  | .ok (localMus, localRecs) =>
    match buildUpstreamHandlerUpdate s.nextHandlerId update.NameServerGroups with
    | .error e => ⟨s, .error ("not applying dns update, error: " ++ e), evs0⟩
    | .ok (upstreamMus, nid) =>
      let um := updateMux { s with nextHandlerId := nid } (localMus ++ upstreamMus)
      let cc := dnsConfigToHostDNSConfig update s.runtimeIP s.runtimePort
      let s2 := { um.1 with localRecords := localRecs, currentConfig := cc }
      let hostUpdate := if s.runtimePort ≠ defaultPort ∧ ¬s.supportCustomPort then
          { cc with RouteAll := false } else cc
      ⟨s2, .ok (), evs0 ++ um.2 ++ [DNSEvent.applyHost hostUpdate]⟩

/-- `DefaultServer.UpdateDNSServer`: refuse when the context is closed, when
the serial is strictly behind the last applied one, or when the host manager
is not initialized; skip the whole application (but still advance the serial)
when the config hash equals the stored hash; otherwise apply and store serial
and hash. -/
def UpdateDNSServer (s : DefaultServer) (serial : Nat) (update : Config) : UpdateResult :=
  if s.ctxDone then ⟨s, .error "context closed", []⟩
  else if serial < s.updateSerial then
    ⟨s, .error "not applying dns update, network update is behind the last applied update", []⟩
  else if ¬s.hostManagerInit then ⟨s, .error "dns service is not initialized yet", []⟩
  else
    let hash := hashConfig update
    if s.previousConfigHash = hash then
      ⟨{ s with updateSerial := serial }, .ok (), []⟩
    else
      let r := applyConfiguration s update
      match r.res with
      | .error e => ⟨r.srv, .error e, r.events⟩
      | .ok () =>
        ⟨{ r.srv with updateSerial := serial, previousConfigHash := hash }, .ok (), r.events⟩

/-! ## Upstream callbacks (`DefaultServer.upstreamCallbacks`)

The deactivate/reactivate closures handed to each upstream handler.
`removeIndex` is the captured `map[string]int` shared between the pair. -/

/-- The domain loop of the `deactivate` closure: every `currentConfig` domain
found in `removeIndex` is marked Disabled, deregistered from the service mux,
and its position recorded in `removeIndex`. -/
def deactLoop (ri : List (String × Int)) (i : Nat) :
    List DomainConfig → List DomainConfig × List (String × Int) × List DNSEvent
  | [] => ([], ri, [])
  | d :: rest =>
    if (lookupA d.Domain ri).isSome then
      let r := deactLoop (insertA d.Domain (Int.ofNat i) ri) (i + 1) rest
      ({ d with Disabled := true } :: r.1, r.2.1, DNSEvent.deregisterMux d.Domain :: r.2.2)
    else
      let r := deactLoop ri (i + 1) rest
      (d :: r.1, r.2.1, r.2.2)

/-- The `deactivate` closure of `upstreamCallbacks`: seed `removeIndex` with
the group's domains (and the root zone, clearing RouteAll, for a primary
group), disable the matching host-config domains, and re-apply the host
config. Returns the updated server, the captured `removeIndex`, and the
event trace. -/
def deactivateGo (g : NameServerGroup) (s : DefaultServer) :
    DefaultServer × List (String × Int) × List DNSEvent :=
  let ri0 : List (String × Int) := g.Domains.foldl (fun acc d => insertA d (-1) acc) []
  let ri1 := if g.Primary then insertA RootZone (-1) ri0 else ri0
  let cfg0 := if g.Primary then { s.currentConfig with RouteAll := false } else s.currentConfig
  let r := deactLoop ri1 0 cfg0.Domains
  let s' := { s with currentConfig := { cfg0 with Domains := r.1 } }
  (s', r.2.1, r.2.2 ++ [DNSEvent.applyHost s'.currentConfig])

/-- The `removeIndex` loop of the `reactivate` closure: every recorded index
that is in range and still names the same domain is re-enabled and its domain
re-registered with the saved handler. (In Go the skip condition is
`i == -1 || i >= len || Domains[i].Domain != domain`; indices other than -1
are always in-range positions recorded by `deactivate`.) -/
def reactLoop (h : Handler) :
    List (String × Int) → List DomainConfig → List DomainConfig × List DNSEvent
  | [], ds => (ds, [])
  | (dom, i) :: rest, ds =>
    if 0 ≤ i then
      match ds[i.toNat]? with
      | some d =>
        if d.Domain = dom then
          let r := reactLoop h rest (ds.set i.toNat { d with Disabled := false })
          (r.1, DNSEvent.registerMux dom h :: r.2)
        else reactLoop h rest ds
      | none => reactLoop h rest ds
    else reactLoop h rest ds

/-- The `reactivate` closure of `upstreamCallbacks`: re-enable the recorded
domains, restore RouteAll for a primary group, and re-apply the host
config. -/
def reactivateGo (g : NameServerGroup) (h : Handler) (ri : List (String × Int))
    (s : DefaultServer) : DefaultServer × List DNSEvent :=
  let r := reactLoop h ri s.currentConfig.Domains
  let cfg1 := { s.currentConfig with Domains := r.1 }
  let cfg2 := if g.Primary then { cfg1 with RouteAll := true } else cfg1
  ({ s with currentConfig := cfg2 }, r.2 ++ [DNSEvent.applyHost cfg2])

/-! ## Upstream resolver (`client/internal/dns/upstream.go`)

`upstreamResolverBase` with its failure counter (an `atomic.Int32`),
deactivation threshold, and probe loop. Upstream I/O is an oracle: each
`exchange` call's outcome is supplied by the environment. -/

/-- `failsTillDeact = int32(5)`. -/
def failsTillDeact : Int := 5

/-- Int32 wraparound of an integer. The fails counter is a Go `int32`; its
increment wraps at `2^31`. -/
def int32wrap (x : Int) : Int := (x + 2147483648) % 4294967296 - 2147483648

/-- `failsCount.Add(1)` on an int32. -/
def int32add1 (x : Int) : Int := int32wrap (x + 1)

/-- Outcome of one `upstreamClient.exchange` call, as seen by `ServeDNS`:
a timeout error, a non-timeout error, a nil reply, or a reply carrying its
`Response` flag. -/
inductive ExchangeOutcome where
  | errTimeout
  | errOther
  | nilReply
  | reply (responseFlag : Bool)
deriving DecidableEq, Repr

/-- State of an `upstreamResolverBase`. `probing` records that a
`waitUntilResponse` loop is running; `goosIsIOS` models `runtime.GOOS ==
"ios"` (which suppresses deactivation). -/
structure UpstreamState where
  ctxDone : Bool
  upstreamServers : List String
  disabled : Bool
  failsCount : Int
  probing : Bool
  goosIsIOS : Bool
deriving DecidableEq, Repr

/-- The deactivate/reactivate callback invocations an upstream resolver
makes. -/
inductive UpCb where
  | deact
  | react
deriving DecidableEq, Repr

/-- Observable result of one `ServeDNS` call: which upstreams were queried,
in order; which upstream's reply (if any) was written back; and the fails
counter after the query loop. -/
structure ServeResult where
  queried : List String
  answered : Option String
  failsAfter : Int
deriving DecidableEq, Repr

/-- The upstream loop of `ServeDNS`, over the servers paired with their
exchange outcomes: a timeout error advances to the next upstream; a
non-timeout error increments the fails counter and returns; a nil reply or a
reply without the `Response` flag returns without touching the counter; a
real response is written back and resets the counter; if every upstream
timed out (or the list is empty) the counter is incremented. -/
def serveLoop (fails : Int) : List (String × ExchangeOutcome) → ServeResult
  | [] => ⟨[], none, int32add1 fails⟩
  | (u, o) :: rest =>
    match o with
    | .errTimeout =>
      let r := serveLoop fails rest
      ⟨u :: r.queried, r.answered, r.failsAfter⟩
    | .errOther => ⟨[u], none, int32add1 fails⟩
    | .nilReply => ⟨[u], none, fails⟩
    | .reply false => ⟨[u], none, fails⟩
    | .reply true => ⟨[u], some u, 0⟩

/-- `upstreamResolverBase.checkUpstreamFails`: once the counter reaches the
threshold while enabled (and the context is live and the platform is not
iOS), invoke `deactivate`, set `disabled`, and start the probe loop. -/
def checkUpstreamFails (s : UpstreamState) : UpstreamState × List UpCb :=
  if s.failsCount < failsTillDeact ∨ s.disabled then (s, [])
  else if s.ctxDone then (s, [])
  else if s.goosIsIOS then (s, [])
  else ({ s with disabled := true, probing := true }, [UpCb.deact])

/-- `upstreamResolverBase.ServeDNS`: a cancelled context returns at once
(the deferred `checkUpstreamFails` still runs); otherwise the upstream loop
runs on the servers paired with the environment's outcomes, and the deferred
`checkUpstreamFails` follows. Note the `disabled` flag is never consulted
here. -/
def ServeDNS (s : UpstreamState) (outcomes : List ExchangeOutcome) :
    UpstreamState × List UpCb × ServeResult :=
  if s.ctxDone then
    let c := checkUpstreamFails s
    (c.1, c.2, ⟨[], none, s.failsCount⟩)
  else
    let r := serveLoop s.failsCount (s.upstreamServers.zip outcomes)
    let c := checkUpstreamFails { s with failsCount := r.failsAfter }
    (c.1, c.2, r)

/-- One probe round of `upstreamResolverBase.waitUntilResponse` (only
meaningful while a probe loop is running): a cancelled context ends the loop
without reactivating; a successful canary exchange resets the counter,
invokes `reactivate`, and clears `disabled`; a failed round retries. -/
def probeStep (s : UpstreamState) (success : Bool) : UpstreamState × List UpCb :=
  if ¬s.probing then (s, [])
  else if s.ctxDone then ({ s with probing := false }, [])
  else if success then
    ({ s with failsCount := 0, disabled := false, probing := false }, [UpCb.react])
  else (s, [])

/-- An environment step against an upstream resolver: a `ServeDNS` call with
its per-upstream exchange outcomes, or one probe-loop round with its
result. -/
inductive UpOp where
  | serve (outcomes : List ExchangeOutcome)
  | probe (success : Bool)
deriving DecidableEq, Repr

/-- Apply one environment step. -/
def upStep (s : UpstreamState) (op : UpOp) : UpstreamState × List UpCb :=
  match op with
  | .serve outcomes => ((ServeDNS s outcomes).1, (ServeDNS s outcomes).2.1)
  | .probe b => probeStep s b

/-- Run a sequence of environment steps, collecting the callback trace. -/
def runUpOps (s : UpstreamState) : List UpOp → UpstreamState × List UpCb
  | [] => (s, [])
  | op :: rest =>
    let st := upStep s op
    let re := runUpOps st.1 rest
    (re.1, st.2 ++ re.2)

/-! ## Supervisor retry loop (`client/internal/connect.go`, `runClient`) -/

/-- The client status surface (`StatusIdle` … `StatusNeedsLogin`). -/
inductive ClientStatus where
  | Idle
  | Connecting
  | Connected
  | NeedsLogin
  | LoginFailed
deriving DecidableEq, Repr

/-- The result of the Management `Login` call in one attempt. -/
inductive LoginOutcome where
  | ok
  | permissionDenied
  | otherErr
deriving DecidableEq, Repr

/-- The environment of one iteration of the backoff `operation`: whether the
outer context is already cancelled, then the success of each step in
sequence (Management connect, server-key fetch, login, Signal connect,
engine start, and whether the session ends asking for a reset). -/
structure AttemptEnv where
  ctxDone : Bool
  mgmConnectOk : Bool
  serverKeyOk : Bool
  login : LoginOutcome
  signalOk : Bool
  engineStartOk : Bool
  resetConnection : Bool
deriving DecidableEq, Repr

/-- Externally observable actions of `runClient`. -/
inductive ClientEvent where
  | setStatus (st : ClientStatus)
  | signalConnectAttempt
  | engineStart
deriving DecidableEq, Repr

/-- How one `operation` call ends, for `backoff.Retry`: a nil return (stop),
a retryable error, or a `backoff.Permanent` error (stop with error). -/
inductive OpOutcome where
  | success
  | transient
  | permanent
deriving DecidableEq, Repr

/-- One iteration of the `operation` closure in `runClient`: a cancelled
context returns nil immediately; otherwise status goes to Connecting,
Management is connected, the login is performed (a `PermissionDenied` reply
sets NeedsLogin and returns a permanent error), Signal is connected, the
engine is started (status Connected), and the session runs until its context
ends. -/
def runOperation (e : AttemptEnv) : OpOutcome × List ClientEvent :=
  if e.ctxDone then (.success, [])
  else
    let evs := [ClientEvent.setStatus ClientStatus.Connecting]
    if ¬e.mgmConnectOk then (.transient, evs)
    else if ¬e.serverKeyOk then (.transient, evs)
    else
      match e.login with
      | .permissionDenied => (.permanent, evs ++ [ClientEvent.setStatus ClientStatus.NeedsLogin])
      | .otherErr => (.transient, evs)
      | .ok =>
        let evs := evs ++ [ClientEvent.signalConnectAttempt]
        if ¬e.signalOk then (.transient, evs)
        else
          let evs := evs ++ [ClientEvent.engineStart,
            ClientEvent.setStatus ClientStatus.Connected]
          if e.resetConnection then (.transient, evs) else (.success, evs)

/-- `backoff.Retry(operation, backOff)`: run attempts until one returns nil
or a permanent error; the environment list bounds the retry budget (the real
cap is a three-month elapsed-time window). Also returns the number of
attempts consumed. -/
def retryLoop : List AttemptEnv → OpOutcome × List ClientEvent × Nat
  | [] => (.transient, [], 0)
  | e :: rest =>
    match runOperation e with
    | (.success, evs) => (.success, evs, 1)
    | (.permanent, evs) => (.permanent, evs, 1)
    | (.transient, evs) =>
      let r := retryLoop rest
      (r.1, evs ++ r.2.1, r.2.2 + 1)

/-- The last status set in a trace. -/
def lastStatus : List ClientEvent → Option ClientStatus
  | [] => none
  | ClientEvent.setStatus st :: rest => (lastStatus rest).getD st |> some
  | _ :: rest => lastStatus rest

/-- `runClient` after the retry loop: a permanent error (the only one is the
`PermissionDenied` login reply) sets NeedsLogin again; the deferred block
sets Idle unless the status ended as NeedsLogin. Returns the full event
trace. -/
def runClient (envs : List AttemptEnv) : List ClientEvent :=
  let r := retryLoop envs
  let evs2 := match r.1 with
    | .permanent => r.2.1 ++ [ClientEvent.setStatus ClientStatus.NeedsLogin]
    | _ => r.2.1
  if lastStatus evs2 = some ClientStatus.NeedsLogin then evs2
  else evs2 ++ [ClientEvent.setStatus ClientStatus.Idle]

/-! ## Concrete fixtures for witnesses and counterexamples -/

/-- An empty host config fixture. -/
def emptyHostCfg : HostDNSConfig := ⟨[], false, "", 53⟩

/-- A live, initialized server fixture with last applied serial 7. -/
def exSrv : DefaultServer :=
  ⟨false, [], [], true, true, "100.64.0.1", 53, 7, 0, emptyHostCfg, false, [], 0⟩

/-- A record fixture. -/
def exRec : SimpleRecord := ⟨"a.test.example.", 1, "in", 300, "1.2.3.4"⟩

/-- A config fixture with one valid custom zone. -/
def exCfg : Config := ⟨true, [⟨"test.example.", [exRec]⟩], []⟩

/-! ## C1: serial guard -/

/-- C1 counterexample: the claim says an update whose serial `s` satisfies
`s ≤ t` (the stored serial) is ignored with no handler-registration changes.
On `exSrv` (stored serial 7) the call `UpdateDNSServer 7 exCfg` has `s = t`,
yet it registers a handler and changes the mux map: the code's guard is
`serial < s.updateSerial`, strict. -/
theorem C1_counterexample :
    7 ≤ exSrv.updateSerial ∧
    ((UpdateDNSServer exSrv 7 exCfg).events.any
      (fun e => match e with | DNSEvent.registerMux _ _ => true | _ => false)) = true ∧
    (UpdateDNSServer exSrv 7 exCfg).srv.dnsMuxMap ≠ exSrv.dnsMuxMap := by
  refine ⟨by decide, by decide, by decide⟩

/-- C1 (amended): for every call `UpdateDNSServer(s, M)` on a server whose
last applied serial is `t`, if `s < t` (strictly) the update is ignored: the
call errors, the server state (mux map, local records, stored serial) is
unchanged, and no OS-level DNS event is emitted. -/
theorem C1_amended_serial_guard (s : DefaultServer) (serial : Nat) (update : Config)
    (h : serial < s.updateSerial) :
    (UpdateDNSServer s serial update).srv = s ∧
    isErr (UpdateDNSServer s serial update).res = true ∧
    (UpdateDNSServer s serial update).events = [] := by
  unfold UpdateDNSServer
  by_cases hc : s.ctxDone <;> simp [hc, h, isErr]

/-- C1 witness: the amended serial guard at a concrete input. -/
theorem C1_amended_serial_guard_witness :
    (UpdateDNSServer exSrv 3 exCfg).srv = exSrv ∧
    isErr (UpdateDNSServer exSrv 3 exCfg).res = true ∧
    (UpdateDNSServer exSrv 3 exCfg).events = [] :=
  C1_amended_serial_guard exSrv 3 exCfg (by decide)

/-! ## C2: hashing optimization -/

/-- C2: if the structural hash of the incoming config equals the stored hash
of the last-applied configuration (and the update reaches the hash check:
live context, initialized host manager, serial not behind), the call
succeeds, emits no OS-level DNS event (no registration, deregistration,
local-record change, or host-DNS application), and only the stored serial
advances to `s`. -/
theorem C2_hash_skip (s : DefaultServer) (serial : Nat) (update : Config)
    (h1 : s.ctxDone = false) (h2 : s.hostManagerInit = true)
    (h3 : s.updateSerial ≤ serial) (h4 : s.previousConfigHash = hashConfig update) :
    (UpdateDNSServer s serial update).res = .ok () ∧
    (UpdateDNSServer s serial update).events = [] ∧
    (UpdateDNSServer s serial update).srv = { s with updateSerial := serial } := by
  unfold UpdateDNSServer
  simp [h1, h2, h4, Nat.not_lt.mpr h3]

/-- A server fixture whose stored hash is the hash of `exCfg`. -/
def exSrvHash : DefaultServer := { exSrv with previousConfigHash := hashConfig exCfg }

/-- C2 witness: the hash-skip behaviour at a concrete input. -/
theorem C2_hash_skip_witness :
    (UpdateDNSServer exSrvHash 9 exCfg).res = .ok () ∧
    (UpdateDNSServer exSrvHash 9 exCfg).events = [] ∧
    (UpdateDNSServer exSrvHash 9 exCfg).srv = { exSrvHash with updateSerial := 9 } :=
  C2_hash_skip exSrvHash 9 exCfg rfl rfl (by decide) rfl

/-! ## C5: build-stage rejections -/

/-- A custom zone with an empty record list makes the zone loop fail,
whatever the accumulators hold. -/
lemma buildLocalGo_empty_zone (zones : List CustomZone) :
    ∀ (mus : List MuxUpdate) (recs : List (String × SimpleRecord)),
      (∃ z ∈ zones, z.Records = []) →
      ∃ e, buildLocalGo mus recs zones = .error e := by
  induction zones with
  | nil => intro mus recs hz; simp at hz
  | cons z rest ih =>
    intro mus recs hz
    cases h0 : z.Records.isEmpty with
    | true =>
      exact ⟨"received an empty list of records", by unfold buildLocalGo; simp [h0]⟩
    | false =>
      obtain ⟨z', hz', hrec⟩ := hz
      rcases List.mem_cons.mp hz' with rfl | hmem
      · rw [hrec] at h0
        simp at h0
      · unfold buildLocalGo
        simp only [h0, Bool.false_eq_true, if_false]
        cases hbr : buildRecords recs z.Records with
        | error e => exact ⟨e, rfl⟩
        | ok recs' => exact ih _ _ ⟨z', hmem, hrec⟩

/-- Every entry of `udpServers l` comes from a UDP nameserver of `l`. -/
lemma udpServers_mem {l : List NameServer} {srv : String} (h : srv ∈ udpServers l) :
    ∃ ns ∈ l, ns.NSTy = NSType.UDPNameServerType ∧ srv = getNSHostPort ns := by
  unfold udpServers at h
  obtain ⟨ns, hmem, rfl⟩ := List.mem_map.mp h
  obtain ⟨hl, hp⟩ := List.mem_filter.mp hmem
  exact ⟨ns, hl, by simpa using hp, rfl⟩

/-- Handlers produced by the group loop only carry servers that come from a
UDP nameserver of one of the groups (in `G`, a superset of the pending
ones). -/
lemma buildUpstreamGo_udp (groups : List NameServerGroup) (G : List NameServerGroup)
    (hsub : ∀ g ∈ groups, g ∈ G) :
    ∀ (mus : List MuxUpdate) (nid : Nat) (mus' : List MuxUpdate) (nid' : Nat),
      buildUpstreamGo mus nid groups = .ok (mus', nid') →
      (∀ mu ∈ mus, ∀ srv ∈ mu.handler.servers,
        ∃ g ∈ G, ∃ ns ∈ g.NameServers, ns.NSTy = NSType.UDPNameServerType ∧
          srv = getNSHostPort ns) →
      ∀ mu ∈ mus', ∀ srv ∈ mu.handler.servers,
        ∃ g ∈ G, ∃ ns ∈ g.NameServers, ns.NSTy = NSType.UDPNameServerType ∧
          srv = getNSHostPort ns := by
  induction groups with
  | nil =>
    intro mus nid mus' nid' h hmus
    unfold buildUpstreamGo at h
    cases h
    exact hmus
  | cons g rest ih =>
    intro mus nid mus' nid' h hmus
    have hg : g ∈ G := hsub g (List.mem_cons_self g rest)
    have hrest : ∀ x ∈ rest, x ∈ G := fun x hx => hsub x (List.mem_cons_of_mem g hx)
    have hnew : ∀ srv ∈ udpServers g.NameServers,
        ∃ gg ∈ G, ∃ ns ∈ gg.NameServers, ns.NSTy = NSType.UDPNameServerType ∧
          srv = getNSHostPort ns := by
      intro srv hsrv
      obtain ⟨ns, hns, hty, heq⟩ := udpServers_mem hsrv
      exact ⟨g, hg, ns, hns, hty, heq⟩
    unfold buildUpstreamGo at h
    by_cases h1 : g.NameServers.isEmpty
    · simp only [h1, if_true] at h
      exact ih hrest _ _ _ _ h hmus
    · simp only [h1, Bool.false_eq_true, if_false] at h
      by_cases h2 : (udpServers g.NameServers).isEmpty
      · simp only [h2, if_true] at h
        exact ih hrest _ _ _ _ h hmus
      · simp only [h2, Bool.false_eq_true, if_false] at h
        by_cases h3 : g.Primary
        · simp only [h3, if_true] at h
          refine ih hrest _ _ _ _ h ?_
          intro mu hmu srv hsrv
          rcases List.mem_append.mp hmu with hold | hnewm
          · exact hmus mu hold srv hsrv
          · have : mu = ⟨RootZone, Handler.upstream nid (udpServers g.NameServers)⟩ := by
              simpa using hnewm
            subst this
            exact hnew srv hsrv
        · simp only [h3, if_false] at h
          by_cases h4 : g.Domains.isEmpty
          · simp [h4] at h
          · simp only [h4, Bool.false_eq_true, if_false] at h
            by_cases h5 : "" ∈ g.Domains
            · simp [h5] at h
            · simp only [h5, Bool.false_eq_true, if_false] at h
              refine ih hrest _ _ _ _ h ?_
              intro mu hmu srv hsrv
              rcases List.mem_append.mp hmu with hold | hnewm
              · exact hmus mu hold srv hsrv
              · obtain ⟨d, _, rfl⟩ := List.mem_map.mp hnewm
                exact hnew srv hsrv

/-- C5: a custom zone with an empty record list rejects the whole update with
an error — the server state is unchanged and no handler registration is
performed — and non-UDP nameservers are rejected at the handler-build stage:
every upstream entry of every handler built by `buildUpstreamHandlerUpdate`
comes from a UDP nameserver of the groups. -/
theorem C5_build_rejections (s : DefaultServer) (update : Config)
    (groups : List NameServerGroup) (nid0 : Nat)
    (hz : ∃ z ∈ update.CustomZones, z.Records = []) :
    (isErr (applyConfiguration s update).res = true ∧
     (applyConfiguration s update).srv = s ∧
     ∀ d h, DNSEvent.registerMux d h ∉ (applyConfiguration s update).events) ∧
    (∀ mus' nid', buildUpstreamHandlerUpdate nid0 groups = .ok (mus', nid') →
      ∀ mu ∈ mus', ∀ srv ∈ mu.handler.servers,
        ∃ g ∈ groups, ∃ ns ∈ g.NameServers,
          ns.NSTy = NSType.UDPNameServerType ∧ srv = getNSHostPort ns) := by
  constructor
  · obtain ⟨e, he⟩ := buildLocalGo_empty_zone update.CustomZones [] [] hz
    unfold applyConfiguration buildLocalHandlerUpdate
    rw [he]
    refine ⟨rfl, rfl, ?_⟩
    intro d h
    by_cases h1 : update.ServiceEnable <;> by_cases h2 : s.permanent <;> simp [h1, h2]
  · intro mus' nid' h
    exact buildUpstreamGo_udp groups groups (fun g hg => hg) [] nid0 mus' nid' h
      (by intro mu hmu; simp at hmu)

/-- A nameserver-group fixture: one UDP and one TCP nameserver. -/
def exGroups : List NameServerGroup :=
  [⟨[⟨"10.0.0.2", NSType.UDPNameServerType, 53⟩, ⟨"10.0.0.3", NSType.TCPNameServerType, 53⟩],
    false, ["corp.example."]⟩]

/-- A config fixture with an empty-record custom zone. -/
def exCfgEmptyZone : Config := ⟨true, [⟨"bad.example.", []⟩], []⟩

/-- C5 witness: both rejection behaviours at concrete inputs. -/
theorem C5_build_rejections_witness :
    (isErr (applyConfiguration exSrv exCfgEmptyZone).res = true ∧
     (applyConfiguration exSrv exCfgEmptyZone).srv = exSrv ∧
     ∀ d h, DNSEvent.registerMux d h ∉ (applyConfiguration exSrv exCfgEmptyZone).events) ∧
    ∀ mu ∈ [MuxUpdate.mk "corp.example." (Handler.upstream 0 ["10.0.0.2:53"])],
      ∀ srv ∈ mu.handler.servers,
        ∃ g ∈ exGroups, ∃ ns ∈ g.NameServers,
          ns.NSTy = NSType.UDPNameServerType ∧ srv = getNSHostPort ns := by
  have h := C5_build_rejections exSrv exCfgEmptyZone exGroups 0
    ⟨⟨"bad.example.", []⟩, by simp [exCfgEmptyZone], rfl⟩
  exact ⟨h.1, h.2 _ 1 rfl⟩

/-! ## C9: frame property of the deactivate/reactivate callbacks -/

/-- Pointwise frame property: `new` equals `old` entry by entry except
possibly for the `Disabled` flag of entries whose domain satisfies `aff`. -/
def togglesOnly (aff : String → Prop) (old new : List DomainConfig) : Prop :=
  old.length = new.length ∧
  ∀ (n : Nat) (a b : DomainConfig), old[n]? = some a → new[n]? = some b →
    b.Domain = a.Domain ∧ b.MatchOnly = a.MatchOnly ∧
    (b.Disabled ≠ a.Disabled → aff a.Domain)

/-- `togglesOnly` is reflexive. -/
lemma togglesOnly_refl (aff : String → Prop) (l : List DomainConfig) :
    togglesOnly aff l l := by
  refine ⟨rfl, ?_⟩
  intro n a b ha hb
  rw [ha] at hb
  cases hb
  exact ⟨rfl, rfl, fun hne => absurd rfl hne⟩

/-- `togglesOnly` composes. -/
lemma togglesOnly_trans {aff : String → Prop} {l1 l2 l3 : List DomainConfig}
    (h12 : togglesOnly aff l1 l2) (h23 : togglesOnly aff l2 l3) :
    togglesOnly aff l1 l3 := by
  obtain ⟨hl12, h12⟩ := h12
  obtain ⟨hl23, h23⟩ := h23
  refine ⟨hl12.trans hl23, ?_⟩
  intro n a c ha hc
  have hn : n < l2.length := by
    rw [← hl12]
    exact (List.getElem?_eq_some.mp ha).1
  cases hb : l2[n]? with
  | none =>
    have := List.getElem?_eq_none_iff.mp hb
    omega
  | some b =>
    obtain ⟨hd12, hm12, ht12⟩ := h12 n a b ha hb
    obtain ⟨hd23, hm23, ht23⟩ := h23 n b c hb hc
    refine ⟨hd23.trans hd12, hm23.trans hm12, ?_⟩
    intro hne
    by_cases hbd : b.Disabled = a.Disabled
    · exact hd12 ▸ ht23 (fun hcb => hne (hcb.trans hbd))
    · exact ht12 hbd

/-- Characterization of lookup after an insert-with-overwrite. -/
lemma lookupA_insertA {α : Type} (k k' : String) (v : α) (l : List (String × α)) :
    lookupA k (insertA k' v l) = if k' = k then some v else lookupA k l := by
  induction l with
  | nil => simp [insertA, lookupA]
  | cons p t ih =>
    obtain ⟨pk, pv⟩ := p
    by_cases h1 : pk = k'
    · rw [show insertA k' v ((pk, pv) :: t) = (k', v) :: t by simp [insertA, h1]]
      by_cases h2 : k' = k
      · simp [lookupA, h2]
      · have h4 : ¬pk = k := fun hh => h2 (h1.symm.trans hh)
        simp [lookupA, h2, h4]
    · rw [show insertA k' v ((pk, pv) :: t) = (pk, pv) :: insertA k' v t by
        simp [insertA, h1]]
      by_cases h2 : pk = k
      · have h3 : ¬k' = k := fun hh => h1 (h2.trans hh.symm)
        simp [lookupA, h2, h3]
      · simp [lookupA, h2, ih]

/-- Keys found after seeding an index map over a domain list come from the
seed accumulator or from the list. -/
lemma lookupA_foldl_seed (ds : List String) (v : Int) :
    ∀ (acc : List (String × Int)) (k : String),
      (lookupA k (ds.foldl (fun a d => insertA d v a) acc)).isSome = true →
      (lookupA k acc).isSome = true ∨ k ∈ ds := by
  induction ds with
  | nil => intro acc k h; exact Or.inl h
  | cons d rest ih =>
    intro acc k h
    rcases ih (insertA d v acc) k h with h' | h'
    · rw [lookupA_insertA] at h'
      by_cases hd : d = k
      · exact Or.inr (by rw [← hd]; exact List.mem_cons_self d rest)
      · rw [if_neg hd] at h'
        exact Or.inl h'
    · exact Or.inr (List.mem_cons_of_mem d h')

/-- The deactivate domain loop only flips `Disabled` flags of domains found
in the index map (whose keys all satisfy `aff`). -/
lemma deactLoop_frame (ds : List DomainConfig) :
    ∀ (ri : List (String × Int)) (i : Nat) (aff : String → Prop),
      (∀ k, (lookupA k ri).isSome = true → aff k) →
      togglesOnly aff ds (deactLoop ri i ds).1 := by
  induction ds with
  | nil => intro ri i aff _; exact togglesOnly_refl aff []
  | cons d rest ih =>
    intro ri i aff haff
    cases hf : (lookupA d.Domain ri).isSome with
    | true =>
      have hres : (deactLoop ri i (d :: rest)).1 =
          { d with Disabled := true } ::
            (deactLoop (insertA d.Domain (Int.ofNat i) ri) (i + 1) rest).1 := by
        simp [deactLoop, hf]
      rw [hres]
      have hri' : ∀ k,
          (lookupA k (insertA d.Domain (Int.ofNat i) ri)).isSome = true → aff k := by
        intro k hk
        rw [lookupA_insertA] at hk
        by_cases hdk : d.Domain = k
        · exact hdk ▸ haff d.Domain hf
        · rw [if_neg hdk] at hk
          exact haff k hk
      obtain ⟨hlen, hpt⟩ := ih (insertA d.Domain (Int.ofNat i) ri) (i + 1) aff hri'
      refine ⟨by simpa using hlen, ?_⟩
      intro n a b ha hb
      cases n with
      | zero =>
        rw [List.getElem?_cons_zero] at ha hb
        cases ha; cases hb
        exact ⟨rfl, rfl, fun _ => haff d.Domain hf⟩
      | succ m =>
        rw [List.getElem?_cons_succ] at ha hb
        exact hpt m a b ha hb
    | false =>
      have hres : (deactLoop ri i (d :: rest)).1 = d :: (deactLoop ri (i + 1) rest).1 := by
        simp [deactLoop, hf]
      rw [hres]
      obtain ⟨hlen, hpt⟩ := ih ri (i + 1) aff haff
      refine ⟨by simpa using hlen, ?_⟩
      intro n a b ha hb
      cases n with
      | zero =>
        rw [List.getElem?_cons_zero] at ha hb
        cases ha; cases hb
        exact ⟨rfl, rfl, fun hne => absurd rfl hne⟩
      | succ m =>
        rw [List.getElem?_cons_succ] at ha hb
        exact hpt m a b ha hb

/-- The reactivate loop only flips `Disabled` flags of domains recorded in
the captured index map. -/
lemma reactLoop_frame (h : Handler) (ri : List (String × Int)) :
    ∀ (ds : List DomainConfig) (aff : String → Prop),
      (∀ dom i, (dom, i) ∈ ri → aff dom) →
      togglesOnly aff ds (reactLoop h ri ds).1 := by
  induction ri with
  | nil => intro ds aff _; exact togglesOnly_refl aff ds
  | cons p rest ih =>
    obtain ⟨dom, i⟩ := p
    intro ds aff haff
    have haff' : ∀ d j, (d, j) ∈ rest → aff d :=
      fun d j hm => haff d j (List.mem_cons_of_mem _ hm)
    by_cases h0 : (0 : Int) ≤ i
    · cases hget : ds[i.toNat]? with
      | none =>
        have hres : (reactLoop h ((dom, i) :: rest) ds).1 = (reactLoop h rest ds).1 := by
          simp [reactLoop, h0, hget]
        rw [hres]
        exact ih ds aff haff'
      | some d =>
        by_cases hdom : d.Domain = dom
        · have hres : (reactLoop h ((dom, i) :: rest) ds).1 =
              (reactLoop h rest (ds.set i.toNat { d with Disabled := false })).1 := by
            simp [reactLoop, h0, hget, hdom]
          rw [hres]
          have hlt : i.toNat < ds.length := (List.getElem?_eq_some.mp hget).1
          have hstep : togglesOnly aff ds (ds.set i.toNat { d with Disabled := false }) := by
            refine ⟨(List.length_set ds i.toNat _).symm, ?_⟩
            intro n a b ha hb
            by_cases hn : i.toNat = n
            · subst hn
              rw [List.getElem?_set_eq_of_lt _ hlt] at hb
              rw [hget] at ha
              cases ha; cases hb
              refine ⟨rfl, rfl, fun _ => ?_⟩
              rw [hdom]
              exact haff dom i (List.mem_cons_self _ rest)
            · rw [List.getElem?_set_ne hn] at hb
              rw [ha] at hb
              cases hb
              exact ⟨rfl, rfl, fun hne => absurd rfl hne⟩
          exact togglesOnly_trans hstep (ih _ aff haff')
        · have hres : (reactLoop h ((dom, i) :: rest) ds).1 = (reactLoop h rest ds).1 := by
            simp [reactLoop, h0, hget, hdom]
          rw [hres]
          exact ih ds aff haff'
    · have hres : (reactLoop h ((dom, i) :: rest) ds).1 = (reactLoop h rest ds).1 := by
        simp [reactLoop, h0]
      rw [hres]
      exact ih ds aff haff'

/-- C9: the deactivate and reactivate callbacks of `upstreamCallbacks` leave
the stored update serial, the stored configuration hash, the mux map and the
local-resolver records unchanged; in the current host config they only flip
`Disabled` flags of the group's domains (plus the root zone for a primary
group) and the `RouteAll` flag of a primary group. -/
theorem C9_callbacks_frame (g : NameServerGroup) (h : Handler)
    (ri : List (String × Int)) (s : DefaultServer) :
    ((deactivateGo g s).1.updateSerial = s.updateSerial ∧
     (deactivateGo g s).1.previousConfigHash = s.previousConfigHash ∧
     (deactivateGo g s).1.dnsMuxMap = s.dnsMuxMap ∧
     (deactivateGo g s).1.localRecords = s.localRecords ∧
     togglesOnly (fun k => k ∈ g.Domains ∨ (g.Primary = true ∧ k = RootZone))
       s.currentConfig.Domains (deactivateGo g s).1.currentConfig.Domains ∧
     (deactivateGo g s).1.currentConfig.RouteAll =
       (if g.Primary then false else s.currentConfig.RouteAll)) ∧
    ((reactivateGo g h ri s).1.updateSerial = s.updateSerial ∧
     (reactivateGo g h ri s).1.previousConfigHash = s.previousConfigHash ∧
     (reactivateGo g h ri s).1.dnsMuxMap = s.dnsMuxMap ∧
     (reactivateGo g h ri s).1.localRecords = s.localRecords ∧
     togglesOnly (fun k => ∃ i, (k, i) ∈ ri)
       s.currentConfig.Domains (reactivateGo g h ri s).1.currentConfig.Domains ∧
     (reactivateGo g h ri s).1.currentConfig.RouteAll =
       (if g.Primary then true else s.currentConfig.RouteAll)) := by
  have hseed : ∀ k,
      (lookupA k (if g.Primary then
          insertA RootZone (-1) (g.Domains.foldl (fun acc d => insertA d (-1) acc) [])
        else g.Domains.foldl (fun acc d => insertA d (-1) acc) [])).isSome = true →
      k ∈ g.Domains ∨ (g.Primary = true ∧ k = RootZone) := by
    intro k hk
    by_cases hp : g.Primary
    · rw [if_pos hp, lookupA_insertA] at hk
      by_cases hr : RootZone = k
      · exact Or.inr ⟨hp, hr.symm⟩
      · rw [if_neg hr] at hk
        rcases lookupA_foldl_seed g.Domains (-1) [] k hk with h' | h'
        · simp [lookupA] at h'
        · exact Or.inl h'
    · rw [if_neg hp] at hk
      rcases lookupA_foldl_seed g.Domains (-1) [] k hk with h' | h'
      · simp [lookupA] at h'
      · exact Or.inl h'
  constructor
  · unfold deactivateGo
    by_cases hp : g.Primary <;>
      refine ⟨rfl, rfl, rfl, rfl, ?_, by simp [hp]⟩ <;>
      simpa [hp] using
        deactLoop_frame s.currentConfig.Domains _ 0 _ (by simpa [hp] using hseed)
  · unfold reactivateGo
    by_cases hp : g.Primary <;>
      refine ⟨rfl, rfl, rfl, rfl, ?_, by simp [hp]⟩ <;>
      simpa [hp] using
        reactLoop_frame h ri s.currentConfig.Domains (fun k => ∃ i, (k, i) ∈ ri)
          (fun dom i hm => ⟨i, hm⟩)

/-! ## C4, C10, C6: the ServeDNS upstream loop -/

/-- `checkUpstreamFails` never changes the fails counter. -/
lemma checkUpstreamFails_fails (s : UpstreamState) :
    (checkUpstreamFails s).1.failsCount = s.failsCount := by
  unfold checkUpstreamFails
  split_ifs <;> rfl

/-- With a live context, a `ServeDNS` call is the upstream loop followed by
the (counter-preserving) deferred check. -/
lemma ServeDNS_live (s : UpstreamState) (outcomes : List ExchangeOutcome)
    (hctx : s.ctxDone = false) :
    (ServeDNS s outcomes).2.2 = serveLoop s.failsCount (s.upstreamServers.zip outcomes) ∧
    (ServeDNS s outcomes).1.failsCount =
      (serveLoop s.failsCount (s.upstreamServers.zip outcomes)).failsAfter := by
  unfold ServeDNS
  rw [if_neg (by simp [hctx])]
  exact ⟨rfl, checkUpstreamFails_fails _⟩

/-- A block of timeouts at the head of the pair list is queried and skipped. -/
lemma serveLoop_timeout_block (fails : Int) (front rest : List (String × ExchangeOutcome))
    (hf : ∀ p ∈ front, p.2 = ExchangeOutcome.errTimeout) :
    serveLoop fails (front ++ rest) =
      ⟨front.map Prod.fst ++ (serveLoop fails rest).queried,
       (serveLoop fails rest).answered, (serveLoop fails rest).failsAfter⟩ := by
  induction front with
  | nil => rfl
  | cons p t ih =>
    obtain ⟨u, o⟩ := p
    have ho : o = ExchangeOutcome.errTimeout := hf (u, o) (List.mem_cons_self _ _)
    subst ho
    have iht := ih (fun q hq => hf q (List.mem_cons_of_mem _ hq))
    simp [serveLoop, iht]

/-- C4: with a live context, upstreams are queried in list order: after a
block of timeouts, a successful response is written back from the first such
upstream and resets the fails counter; a non-timeout error stops the loop at
once and increments the counter; if every upstream times out, all are
queried, no answer is produced, and the counter is incremented. -/
theorem C4_upstream_order (s : UpstreamState) (front rest : List (String × ExchangeOutcome))
    (u : String) (hctx : s.ctxDone = false)
    (hf : ∀ p ∈ front, p.2 = ExchangeOutcome.errTimeout) :
    (∀ outcomes, s.upstreamServers.zip outcomes =
        front ++ (u, ExchangeOutcome.reply true) :: rest →
      (ServeDNS s outcomes).2.2.queried = front.map Prod.fst ++ [u] ∧
      (ServeDNS s outcomes).2.2.answered = some u ∧
      (ServeDNS s outcomes).1.failsCount = 0) ∧
    (∀ outcomes, s.upstreamServers.zip outcomes =
        front ++ (u, ExchangeOutcome.errOther) :: rest →
      (ServeDNS s outcomes).2.2.queried = front.map Prod.fst ++ [u] ∧
      (ServeDNS s outcomes).2.2.answered = none ∧
      (ServeDNS s outcomes).1.failsCount = int32add1 s.failsCount) ∧
    (∀ outcomes, outcomes.length = s.upstreamServers.length →
      s.upstreamServers.zip outcomes = front →
      (ServeDNS s outcomes).2.2.queried = s.upstreamServers ∧
      (ServeDNS s outcomes).2.2.answered = none ∧
      (ServeDNS s outcomes).1.failsCount = int32add1 s.failsCount) := by
  refine ⟨?_, ?_, ?_⟩
  · intro outcomes hzip
    obtain ⟨h1, h2⟩ := ServeDNS_live s outcomes hctx
    rw [h1, h2, hzip, serveLoop_timeout_block _ _ _ hf]
    simp [serveLoop]
  · intro outcomes hzip
    obtain ⟨h1, h2⟩ := ServeDNS_live s outcomes hctx
    rw [h1, h2, hzip, serveLoop_timeout_block _ _ _ hf]
    simp [serveLoop]
  · intro outcomes hlen hzip
    obtain ⟨h1, h2⟩ := ServeDNS_live s outcomes hctx
    have hfst : front.map Prod.fst = s.upstreamServers := by
      rw [← hzip]
      exact List.map_fst_zip _ _ (le_of_eq hlen.symm)
    have hfr : front = front ++ ([] : List (String × ExchangeOutcome)) := by simp
    rw [h1, h2, hzip, hfr, serveLoop_timeout_block _ _ _ hf]
    simp [serveLoop, hfst]

/-- The fails counter leaving the upstream loop is either reset, untouched,
or incremented — and an increment means a non-timeout error was hit after a
block of timeouts, or every pair timed out. -/
lemma serveLoop_changes (fails : Int) (pairs : List (String × ExchangeOutcome)) :
    (serveLoop fails pairs).failsAfter = fails ∨
    (serveLoop fails pairs).failsAfter = 0 ∨
    ((serveLoop fails pairs).failsAfter = int32add1 fails ∧
      ((∀ p ∈ pairs, p.2 = ExchangeOutcome.errTimeout) ∨
       ∃ fr u2 re, pairs = fr ++ (u2, ExchangeOutcome.errOther) :: re ∧
         ∀ p ∈ fr, p.2 = ExchangeOutcome.errTimeout)) := by
  induction pairs with
  | nil => exact Or.inr (Or.inr ⟨rfl, Or.inl (by simp)⟩)
  | cons p t ih =>
    obtain ⟨u, o⟩ := p
    cases o with
    | errTimeout =>
      rcases ih with h | h | ⟨h1, h2⟩
      · exact Or.inl (by simpa [serveLoop] using h)
      · exact Or.inr (Or.inl (by simpa [serveLoop] using h))
      · refine Or.inr (Or.inr ⟨by simpa [serveLoop] using h1, ?_⟩)
        rcases h2 with hall | ⟨fr, u2, re, heq, hfr⟩
        · refine Or.inl ?_
          intro q hq
          rcases List.mem_cons.mp hq with rfl | hq'
          · rfl
          · exact hall q hq'
        · refine Or.inr ⟨(u, ExchangeOutcome.errTimeout) :: fr, u2, re, by rw [heq]; rfl, ?_⟩
          intro q hq
          rcases List.mem_cons.mp hq with rfl | hq'
          · rfl
          · exact hfr q hq'
    | errOther =>
      exact Or.inr (Or.inr ⟨by simp [serveLoop], Or.inr ⟨[], u, t, rfl, by simp⟩⟩)
    | nilReply => exact Or.inl (by simp [serveLoop])
    | reply b =>
      cases b with
      | false => exact Or.inl (by simp [serveLoop])
      | true => exact Or.inr (Or.inl (by simp [serveLoop]))

/-- C10: with a live context, a nil reply or a reply without the `Response`
flag ends the call without touching the fails counter (so such replies never
count toward deactivation); and whenever the counter does change it was
either reset by a successful response or incremented — the latter only when
some upstream returned a non-timeout error after a block of timeouts, or
every upstream timed out. -/
theorem C10_counter_conditions (s : UpstreamState)
    (front rest : List (String × ExchangeOutcome)) (u : String)
    (hctx : s.ctxDone = false)
    (hf : ∀ p ∈ front, p.2 = ExchangeOutcome.errTimeout) :
    (∀ outcomes, s.upstreamServers.zip outcomes =
        front ++ (u, ExchangeOutcome.nilReply) :: rest →
      (ServeDNS s outcomes).1.failsCount = s.failsCount ∧
      (ServeDNS s outcomes).2.2.answered = none ∧
      (ServeDNS s outcomes).2.2.queried = front.map Prod.fst ++ [u]) ∧
    (∀ outcomes, s.upstreamServers.zip outcomes =
        front ++ (u, ExchangeOutcome.reply false) :: rest →
      (ServeDNS s outcomes).1.failsCount = s.failsCount ∧
      (ServeDNS s outcomes).2.2.answered = none ∧
      (ServeDNS s outcomes).2.2.queried = front.map Prod.fst ++ [u]) ∧
    (∀ outcomes, (ServeDNS s outcomes).1.failsCount ≠ s.failsCount →
      (ServeDNS s outcomes).1.failsCount = 0 ∨
      ((ServeDNS s outcomes).1.failsCount = int32add1 s.failsCount ∧
        ((∀ p ∈ s.upstreamServers.zip outcomes, p.2 = ExchangeOutcome.errTimeout) ∨
         ∃ fr u2 re, s.upstreamServers.zip outcomes =
             fr ++ (u2, ExchangeOutcome.errOther) :: re ∧
           ∀ p ∈ fr, p.2 = ExchangeOutcome.errTimeout))) := by
  refine ⟨?_, ?_, ?_⟩
  · intro outcomes hzip
    obtain ⟨h1, h2⟩ := ServeDNS_live s outcomes hctx
    rw [h1, h2, hzip, serveLoop_timeout_block _ _ _ hf]
    simp [serveLoop]
  · intro outcomes hzip
    obtain ⟨h1, h2⟩ := ServeDNS_live s outcomes hctx
    rw [h1, h2, hzip, serveLoop_timeout_block _ _ _ hf]
    simp [serveLoop]
  · intro outcomes hne
    obtain ⟨h1, h2⟩ := ServeDNS_live s outcomes hctx
    rw [h2] at hne ⊢
    rcases serveLoop_changes s.failsCount (s.upstreamServers.zip outcomes) with h | h | h
    · exact absurd h hne
    · exact Or.inl h
    · exact Or.inr h

/-- A disabled upstream resolver fixture (probe loop running). -/
def exUpDisabled : UpstreamState := ⟨false, ["10.0.0.2:53"], true, 0, true, false⟩

/-- C6 counterexample: the claim says a `ServeDNS` call on a resolver whose
`disabled` flag is true answers SERVFAIL-equivalent immediately without
querying any upstream. On this disabled resolver the call queries its
upstream and even writes the upstream's answer back: `ServeDNS` never
consults the `disabled` flag. -/
theorem C6_counterexample :
    exUpDisabled.disabled = true ∧
    (ServeDNS exUpDisabled [ExchangeOutcome.reply true]).2.2.queried = ["10.0.0.2:53"] ∧
    (ServeDNS exUpDisabled [ExchangeOutcome.reply true]).2.2.answered =
      some "10.0.0.2:53" := by
  refine ⟨rfl, by decide, by decide⟩

/-- C6 (amended): `ServeDNS` does not consult the `disabled` flag — a
disabled resolver behaves exactly as an enabled one; it is the stopped
(context-cancelled) resolver that returns immediately without querying any
upstream. While disabled, queries are kept away by the deactivate callback
deregistering its domains from the multiplexer. -/
theorem C6_amended_no_disabled_check (s : UpstreamState) (outcomes : List ExchangeOutcome) :
    (s.ctxDone = true →
      (ServeDNS s outcomes).2.2.queried = [] ∧ (ServeDNS s outcomes).2.2.answered = none) ∧
    (ServeDNS { s with disabled := true } outcomes).2.2 =
      (ServeDNS { s with disabled := false } outcomes).2.2 := by
  constructor
  · intro hc
    unfold ServeDNS
    rw [if_pos (by simp [hc])]
    exact ⟨rfl, rfl⟩
  · unfold ServeDNS
    by_cases hc : s.ctxDone
    · rw [if_pos (by simp [hc]), if_pos (by simp [hc])]
    · rw [if_neg (by simp [hc]), if_neg (by simp [hc])]

/-- A stopped upstream resolver fixture. -/
def exUpDone : UpstreamState := ⟨true, ["10.0.0.2:53"], false, 1, false, false⟩

/-- C6 witness: the amended behaviour at concrete inputs. -/
theorem C6_amended_witness :
    ((ServeDNS exUpDone [ExchangeOutcome.reply true]).2.2.queried = [] ∧
     (ServeDNS exUpDone [ExchangeOutcome.reply true]).2.2.answered = none) ∧
    (ServeDNS { exUpDone with disabled := true } [ExchangeOutcome.reply true]).2.2 =
      (ServeDNS { exUpDone with disabled := false } [ExchangeOutcome.reply true]).2.2 := by
  have h := C6_amended_no_disabled_check exUpDone [ExchangeOutcome.reply true]
  exact ⟨h.1 rfl, h.2⟩

/-- A healthy two-upstream resolver fixture. -/
def exUp2 : UpstreamState := ⟨false, ["10.0.0.2:53", "10.0.0.3:53"], false, 0, false, false⟩

/-- C4 witness: the three loop behaviours at concrete inputs. -/
theorem C4_upstream_order_witness :
    (ServeDNS exUp2 [ExchangeOutcome.errTimeout, ExchangeOutcome.reply true]).2.2.answered =
      some "10.0.0.3:53" ∧
    (ServeDNS exUp2 [ExchangeOutcome.errTimeout, ExchangeOutcome.errOther]).1.failsCount =
      int32add1 exUp2.failsCount ∧
    (ServeDNS exUp2 [ExchangeOutcome.errTimeout, ExchangeOutcome.errTimeout]).2.2.queried =
      exUp2.upstreamServers := by
  have h := C4_upstream_order exUp2 [("10.0.0.2:53", ExchangeOutcome.errTimeout)] []
    "10.0.0.3:53" rfl (by decide)
  have h3 := C4_upstream_order exUp2
    [("10.0.0.2:53", ExchangeOutcome.errTimeout), ("10.0.0.3:53", ExchangeOutcome.errTimeout)]
    [] "unused" rfl (by decide)
  exact ⟨(h.1 _ (by decide)).2.1, (h.2.1 _ (by decide)).2.2,
    (h3.2.2 _ (by decide) (by decide)).1⟩

/-- C10 witness: nil replies and flag-less replies leave the counter alone;
a non-timeout error is reported by the change characterization. -/
theorem C10_counter_conditions_witness :
    ((ServeDNS exUp2 [ExchangeOutcome.nilReply]).1.failsCount = exUp2.failsCount ∧
     (ServeDNS exUp2 [ExchangeOutcome.reply false]).1.failsCount = exUp2.failsCount) ∧
    ((ServeDNS exUp2 [ExchangeOutcome.errOther]).1.failsCount = 0 ∨
      ((ServeDNS exUp2 [ExchangeOutcome.errOther]).1.failsCount = int32add1 exUp2.failsCount ∧
        ((∀ p ∈ exUp2.upstreamServers.zip [ExchangeOutcome.errOther],
            p.2 = ExchangeOutcome.errTimeout) ∨
         ∃ fr u2 re, exUp2.upstreamServers.zip [ExchangeOutcome.errOther] =
             fr ++ (u2, ExchangeOutcome.errOther) :: re ∧
           ∀ p ∈ fr, p.2 = ExchangeOutcome.errTimeout))) := by
  have ha := C10_counter_conditions exUp2 [] [] "10.0.0.2:53" rfl (by decide)
  exact ⟨⟨(ha.1 _ (by decide)).1, (ha.2.1 _ (by decide)).1⟩,
    ha.2.2 [ExchangeOutcome.errOther] (by decide)⟩

/-! ## C3: deactivation crossings and probe recoveries alternate -/

/-- A callback trace is well-formed from a given disabled state: a `deact`
only fires while enabled, a `react` only while disabled (so crossings fire
exactly once and alternate with recoveries). -/
def cbsOk : Bool → List UpCb → Bool
  | _, [] => true
  | false, UpCb.deact :: rest => cbsOk true rest
  | true, UpCb.react :: rest => cbsOk false rest
  | _, _ => false

/-- The disabled state a callback trace leaves behind. -/
def flagAfter : Bool → List UpCb → Bool
  | b, [] => b
  | _, UpCb.deact :: rest => flagAfter true rest
  | _, UpCb.react :: rest => flagAfter false rest

/-- `flagAfter` splits over append. -/
lemma flagAfter_append (l1 l2 : List UpCb) :
    ∀ b, flagAfter b (l1 ++ l2) = flagAfter (flagAfter b l1) l2 := by
  induction l1 with
  | nil => intro b; rfl
  | cons c t ih => intro b; cases c <;> simp [flagAfter, ih]

/-- `cbsOk` composes over append. -/
lemma cbsOk_append (l1 l2 : List UpCb) :
    ∀ b, cbsOk b l1 = true → cbsOk (flagAfter b l1) l2 = true →
      cbsOk b (l1 ++ l2) = true := by
  induction l1 with
  | nil => intro b _ h2; simpa using h2
  | cons c t ih =>
    intro b h1 h2
    cases b <;> cases c <;>
      simp only [cbsOk, flagAfter, List.cons_append] at h1 h2 ⊢ <;>
      first
        | exact ih _ h1 h2
        | exact absurd h1 (by simp)

/-- `cbsOk` on the empty trace. -/
lemma cbsOk_nil (b : Bool) : cbsOk b [] = true := by cases b <;> rfl

/-- `flagAfter` on the empty trace. -/
lemma flagAfter_nil (b : Bool) : flagAfter b [] = b := by cases b <;> rfl

/-- The final flag of a trace is decided by its last callback. -/
lemma flagAfter_last (l : List UpCb) :
    ∀ b, flagAfter b l =
      match l.getLast? with
      | none => b
      | some UpCb.deact => true
      | some UpCb.react => false := by
  induction l with
  | nil => intro b; rfl
  | cons c t ih =>
    intro b
    cases t with
    | nil => cases c <;> rfl
    | cons c2 t2 =>
      have hl : (c :: c2 :: t2).getLast? = (c2 :: t2).getLast? := List.getLast?_cons_cons
      have hstep : flagAfter b (c :: c2 :: t2) = flagAfter (flagAfter b [c]) (c2 :: t2) := by
        cases c <;> rfl
      rw [hstep, hl, ih (flagAfter b [c])]
      cases hg : (c2 :: t2).getLast? with
      | none => simp at hg
      | some cc => cases cc <;> rfl

/-- The run invariant: the probe loop runs exactly while disabled, and while
enabled the fails counter stays below the threshold. -/
def upInv (s : UpstreamState) : Prop :=
  s.probing = s.disabled ∧ (s.disabled = false → 0 ≤ s.failsCount ∧ s.failsCount ≤ 4)

/-- Int32 increment acts as plain increment below the threshold. -/
lemma int32add1_small {x : Int} (h0 : 0 ≤ x) (h4 : x ≤ 4) : int32add1 x = x + 1 := by
  unfold int32add1 int32wrap
  rw [Int.emod_eq_of_lt (by omega) (by omega)]
  omega

/-- One environment step preserves the invariant and emits a well-formed
callback fragment tracking the disabled flag. -/
lemma upStep_inv (s : UpstreamState) (op : UpOp)
    (hctx : s.ctxDone = false) (hios : s.goosIsIOS = false) (hinv : upInv s) :
    (upStep s op).1.ctxDone = false ∧ (upStep s op).1.goosIsIOS = false ∧
    upInv (upStep s op).1 ∧
    cbsOk s.disabled (upStep s op).2 = true ∧
    flagAfter s.disabled (upStep s op).2 = (upStep s op).1.disabled := by
  obtain ⟨hpd, hbound⟩ := hinv
  cases op with
  | probe b =>
    show (probeStep s b).1.ctxDone = false ∧ (probeStep s b).1.goosIsIOS = false ∧
      upInv (probeStep s b).1 ∧ cbsOk s.disabled (probeStep s b).2 = true ∧
      flagAfter s.disabled (probeStep s b).2 = (probeStep s b).1.disabled
    unfold probeStep
    by_cases hp : s.probing = true
    · have hd : s.disabled = true := hpd.symm.trans hp
      rw [if_neg (by simp [hp]), if_neg (by simp [hctx])]
      cases b with
      | true =>
        rw [if_pos rfl]
        refine ⟨hctx, hios, ⟨rfl, fun _ => by norm_num⟩, ?_, ?_⟩
        · rw [hd]; rfl
        · rw [hd]; rfl
      | false =>
        rw [if_neg (by simp)]
        exact ⟨hctx, hios, ⟨hpd, hbound⟩, cbsOk_nil _, flagAfter_nil _⟩
    · rw [if_pos (by simpa using hp)]
      exact ⟨hctx, hios, ⟨hpd, hbound⟩, cbsOk_nil _, flagAfter_nil _⟩
  | serve outcomes =>
    have hs1 : (ServeDNS s outcomes).1 =
        (checkUpstreamFails { s with failsCount :=
          (serveLoop s.failsCount (s.upstreamServers.zip outcomes)).failsAfter }).1 ∧
        (ServeDNS s outcomes).2.1 =
        (checkUpstreamFails { s with failsCount :=
          (serveLoop s.failsCount (s.upstreamServers.zip outcomes)).failsAfter }).2 := by
      unfold ServeDNS
      rw [if_neg (by simp [hctx])]
      exact ⟨rfl, rfl⟩
    show (ServeDNS s outcomes).1.ctxDone = false ∧ (ServeDNS s outcomes).1.goosIsIOS = false ∧
      upInv (ServeDNS s outcomes).1 ∧ cbsOk s.disabled (ServeDNS s outcomes).2.1 = true ∧
      flagAfter s.disabled (ServeDNS s outcomes).2.1 = (ServeDNS s outcomes).1.disabled
    rw [hs1.1, hs1.2]
    set f' := (serveLoop s.failsCount (s.upstreamServers.zip outcomes)).failsAfter with hf'
    set s1 : UpstreamState := { s with failsCount := f' } with hs1def
    unfold checkUpstreamFails
    by_cases hd : s.disabled = true
    · rw [if_pos (Or.inr (show s1.disabled = true from hd))]
      refine ⟨hctx, hios, ⟨hpd, fun hcon => absurd (hd ▸ hcon) (by simp)⟩,
        cbsOk_nil _, ?_⟩
      show flagAfter s.disabled [] = s1.disabled
      rw [flagAfter_nil]
    · have hdf : s.disabled = false := by simpa using hd
      have hb := hbound hdf
      have hcases : f' = 0 ∨ f' = s.failsCount ∨ f' = s.failsCount + 1 := by
        rcases serveLoop_changes s.failsCount (s.upstreamServers.zip outcomes) with h | h | h
        · exact Or.inr (Or.inl h)
        · exact Or.inl h
        · exact Or.inr (Or.inr (by rw [← int32add1_small hb.1 hb.2]; exact h.1))
      have hge : 0 ≤ f' ∧ f' ≤ 5 := by rcases hcases with h | h | h <;> omega
      by_cases hlt : f' < failsTillDeact
      · rw [if_pos (Or.inl (show s1.failsCount < failsTillDeact from hlt))]
        refine ⟨hctx, hios, ⟨hpd, fun _ => ?_⟩, cbsOk_nil _, ?_⟩
        · have h4 : f' ≤ 4 := by
            have h5 : f' < 5 := by simpa [failsTillDeact] using hlt
            omega
          exact ⟨hge.1, h4⟩
        · show flagAfter s.disabled [] = s1.disabled
          rw [flagAfter_nil]
      · rw [if_neg (by
            rw [not_or]
            exact ⟨show ¬s1.failsCount < failsTillDeact from hlt,
              show ¬s1.disabled = true from hd⟩),
          if_neg (show ¬s1.ctxDone = true by simp [hctx, hs1def]),
          if_neg (show ¬s1.goosIsIOS = true by simp [hios, hs1def])]
        refine ⟨hctx, hios, ⟨rfl, fun hcon => by simp at hcon⟩, ?_, ?_⟩
        · rw [hdf]; rfl
        · rw [hdf]; rfl

/-- Whole-run version of the invariant. -/
lemma runUpOps_inv (ops : List UpOp) : ∀ (s : UpstreamState),
    s.ctxDone = false → s.goosIsIOS = false → upInv s →
    (runUpOps s ops).1.ctxDone = false ∧ (runUpOps s ops).1.goosIsIOS = false ∧
    upInv (runUpOps s ops).1 ∧
    cbsOk s.disabled (runUpOps s ops).2 = true ∧
    flagAfter s.disabled (runUpOps s ops).2 = (runUpOps s ops).1.disabled := by
  induction ops with
  | nil => intro s h1 h2 h3; exact ⟨h1, h2, h3, cbsOk_nil _, flagAfter_nil _⟩
  | cons op rest ih =>
    intro s h1 h2 h3
    have hs := upStep_inv s op h1 h2 h3
    have hr := ih (upStep s op).1 hs.1 hs.2.1 hs.2.2.1
    refine ⟨hr.1, hr.2.1, hr.2.2.1, ?_, ?_⟩
    · exact cbsOk_append _ _ _ hs.2.2.2.1 (by rw [hs.2.2.2.2]; exact hr.2.2.2.1)
    · show flagAfter s.disabled ((upStep s op).2 ++ (runUpOps (upStep s op).1 rest).2) = _
      rw [flagAfter_append, hs.2.2.2.2]
      exact hr.2.2.2.2

/-- C3: from a healthy start (enabled, no probe loop, zero counter, live
context, not iOS), for every sequence of ServeDNS calls and probe results the
deactivate/reactivate callbacks strictly alternate starting with deactivate
(so each threshold crossing fires deactivate exactly once), and the resolver
ends disabled iff the last callback was a deactivate — i.e. iff a crossing
happened with no successful probe since. -/
theorem C3_disabled_iff (s0 : UpstreamState) (ops : List UpOp)
    (h1 : s0.ctxDone = false) (h2 : s0.goosIsIOS = false)
    (h3 : s0.disabled = false) (h4 : s0.probing = false) (h5 : s0.failsCount = 0) :
    cbsOk false (runUpOps s0 ops).2 = true ∧
    ((runUpOps s0 ops).1.disabled = true ↔
      (runUpOps s0 ops).2.getLast? = some UpCb.deact) := by
  have hinv : upInv s0 := ⟨by rw [h4, h3], fun _ => by rw [h5]; exact ⟨by norm_num, by norm_num⟩⟩
  have hr := runUpOps_inv ops s0 h1 h2 hinv
  constructor
  · rw [← h3]
    exact hr.2.2.2.1
  · have hfl := hr.2.2.2.2
    rw [h3] at hfl
    rw [← hfl, flagAfter_last]
    cases hlast : (runUpOps s0 ops).2.getLast? with
    | none => simp
    | some c => cases c <;> simp

/-- A healthy single-upstream resolver fixture. -/
def exUp1 : UpstreamState := ⟨false, ["10.0.0.2:53"], false, 0, false, false⟩

/-- C3 witness: the alternation and the disabled-iff property on a concrete
run that crosses the threshold and then recovers by probe. -/
theorem C3_disabled_iff_witness :
    cbsOk false (runUpOps exUp1
      (List.replicate 5 (UpOp.serve [ExchangeOutcome.errOther]) ++ [UpOp.probe true])).2 =
      true ∧
    ((runUpOps exUp1
        (List.replicate 5 (UpOp.serve [ExchangeOutcome.errOther]) ++ [UpOp.probe true])).1.disabled =
        true ↔
      (runUpOps exUp1
        (List.replicate 5 (UpOp.serve [ExchangeOutcome.errOther]) ++ [UpOp.probe true])).2.getLast? =
        some UpCb.deact) :=
  C3_disabled_iff exUp1 _ rfl rfl rfl rfl rfl

/-! ## C7: PermissionDenied login is terminal -/

/-- An attempt that fails before the Signal step: live context, but the
Management connect, the server-key fetch, or the login (with a retryable
error) fails. -/
def failsBeforeSignal (e : AttemptEnv) : Prop :=
  e.ctxDone = false ∧
  (e.mgmConnectOk = false ∨ e.serverKeyOk = false ∨ e.login = LoginOutcome.otherErr)

instance (e : AttemptEnv) : Decidable (failsBeforeSignal e) := by
  unfold failsBeforeSignal
  infer_instance

/-- An attempt failing before Signal is transient and only sets Connecting. -/
lemma runOperation_failsBefore (e : AttemptEnv) (h : failsBeforeSignal e) :
    runOperation e = (.transient, [ClientEvent.setStatus ClientStatus.Connecting]) := by
  obtain ⟨hc, hrest⟩ := h
  unfold runOperation
  rw [if_neg (by simp [hc])]
  by_cases h1 : e.mgmConnectOk = true
  · rw [if_neg (by simp [h1])]
    by_cases h2 : e.serverKeyOk = true
    · rw [if_neg (by simp [h2])]
      have hl : e.login = LoginOutcome.otherErr := by
        rcases hrest with h | h | h
        · rw [h1] at h; cases h
        · rw [h2] at h; cases h
        · exact h
      rw [hl]
    · rw [if_pos (by simpa using h2)]
  · rw [if_pos (by simpa using h1)]

/-- A block of before-Signal failures at the head of the environment list
only consumes one attempt each, appending one Connecting status per
attempt. -/
lemma retryLoop_transient_front (pre : List AttemptEnv) (l : List AttemptEnv)
    (hpre : ∀ x ∈ pre, failsBeforeSignal x) :
    retryLoop (pre ++ l) =
      ((retryLoop l).1,
       List.replicate pre.length (ClientEvent.setStatus ClientStatus.Connecting) ++
         (retryLoop l).2.1,
       pre.length + (retryLoop l).2.2) := by
  induction pre with
  | nil => simp
  | cons e t ih =>
    have he := runOperation_failsBefore e (hpre e (List.mem_cons_self _ _))
    have iht := ih (fun x hx => hpre x (List.mem_cons_of_mem _ hx))
    have hstep : retryLoop (e :: (t ++ l)) =
        ((retryLoop (t ++ l)).1,
         [ClientEvent.setStatus ClientStatus.Connecting] ++ (retryLoop (t ++ l)).2.1,
         (retryLoop (t ++ l)).2.2 + 1) := by
      conv_lhs => unfold retryLoop
      rw [he]
    show retryLoop (e :: (t ++ l)) = _
    rw [hstep, iht, Prod.ext_iff, Prod.ext_iff]
    refine ⟨rfl, ?_, ?_⟩
    · simp [List.replicate_succ]
    · simp only [List.length_cons]
      omega

/-- A `PermissionDenied` login reply makes the operation permanent, setting
Connecting then NeedsLogin. -/
lemma runOperation_denied (e : AttemptEnv) (h1 : e.ctxDone = false)
    (h2 : e.mgmConnectOk = true) (h3 : e.serverKeyOk = true)
    (h4 : e.login = LoginOutcome.permissionDenied) :
    runOperation e = (.permanent,
      [ClientEvent.setStatus ClientStatus.Connecting,
       ClientEvent.setStatus ClientStatus.NeedsLogin]) := by
  unfold runOperation
  rw [if_neg (by simp [h1]), if_neg (by simp [h2]), if_neg (by simp [h3]), h4]
  rfl

/-- The status a trace ends on after appending one more status set. -/
lemma lastStatus_append_set (l : List ClientEvent) (st : ClientStatus) :
    lastStatus (l ++ [ClientEvent.setStatus st]) = some st := by
  induction l with
  | nil => rfl
  | cons c t ih => cases c <;> simp [lastStatus, ih]

/-- C7: if, after any number of attempts that fail before the Signal step,
the Management login replies `PermissionDenied`, then the client's final
status is NeedsLogin, no Signal connection is ever attempted, the retry loop
exits right there (later environments are never consumed and the attempt
count is exactly the prefix length plus one). -/
theorem C7_permission_denied (pre post : List AttemptEnv) (e : AttemptEnv)
    (hpre : ∀ x ∈ pre, failsBeforeSignal x)
    (h1 : e.ctxDone = false) (h2 : e.mgmConnectOk = true)
    (h3 : e.serverKeyOk = true) (h4 : e.login = LoginOutcome.permissionDenied) :
    lastStatus (runClient (pre ++ e :: post)) = some ClientStatus.NeedsLogin ∧
    ClientEvent.signalConnectAttempt ∉ runClient (pre ++ e :: post) ∧
    runClient (pre ++ e :: post) = runClient (pre ++ [e]) ∧
    (retryLoop (pre ++ e :: post)).2.2 = pre.length + 1 := by
  have hden : retryLoop (e :: post) = (.permanent,
      [ClientEvent.setStatus ClientStatus.Connecting,
       ClientEvent.setStatus ClientStatus.NeedsLogin], 1) := by
    unfold retryLoop
    rw [runOperation_denied e h1 h2 h3 h4]
  have hden1 : retryLoop [e] = (.permanent,
      [ClientEvent.setStatus ClientStatus.Connecting,
       ClientEvent.setStatus ClientStatus.NeedsLogin], 1) := by
    unfold retryLoop
    rw [runOperation_denied e h1 h2 h3 h4]
  have hfront := retryLoop_transient_front pre (e :: post) hpre
  have hfront1 := retryLoop_transient_front pre [e] hpre
  rw [hden] at hfront
  rw [hden1] at hfront1
  have hevs : runClient (pre ++ e :: post) =
      (List.replicate pre.length (ClientEvent.setStatus ClientStatus.Connecting) ++
        [ClientEvent.setStatus ClientStatus.Connecting,
         ClientEvent.setStatus ClientStatus.NeedsLogin]) ++
        [ClientEvent.setStatus ClientStatus.NeedsLogin] := by
    unfold runClient
    rw [hfront]
    rw [if_pos (lastStatus_append_set _ _)]
  have hevs1 : runClient (pre ++ [e]) =
      (List.replicate pre.length (ClientEvent.setStatus ClientStatus.Connecting) ++
        [ClientEvent.setStatus ClientStatus.Connecting,
         ClientEvent.setStatus ClientStatus.NeedsLogin]) ++
        [ClientEvent.setStatus ClientStatus.NeedsLogin] := by
    unfold runClient
    rw [hfront1]
    rw [if_pos (lastStatus_append_set _ _)]
  refine ⟨?_, ?_, ?_, ?_⟩
  · rw [hevs]
    exact lastStatus_append_set _ _
  · rw [hevs]
    intro hmem
    rcases List.mem_append.mp hmem with hmem | hmem
    · rcases List.mem_append.mp hmem with hmem | hmem
      · exact absurd (List.eq_of_mem_replicate hmem) (by simp)
      · simp at hmem
    · simp at hmem
  · rw [hevs, hevs1]
  · rw [hfront]

/-- An attempt environment that dies connecting to Management. -/
def envMgmFail : AttemptEnv := ⟨false, false, true, LoginOutcome.ok, true, true, false⟩

/-- An attempt environment whose login is permission-denied. -/
def envDenied : AttemptEnv := ⟨false, true, true, LoginOutcome.permissionDenied, true, true, false⟩

/-- C7 witness: the terminal permission-denied behaviour on a concrete run. -/
theorem C7_permission_denied_witness :
    lastStatus (runClient ([envMgmFail] ++ envDenied :: [envMgmFail])) =
      some ClientStatus.NeedsLogin ∧
    ClientEvent.signalConnectAttempt ∉ runClient ([envMgmFail] ++ envDenied :: [envMgmFail]) ∧
    runClient ([envMgmFail] ++ envDenied :: [envMgmFail]) = runClient ([envMgmFail] ++ [envDenied]) ∧
    (retryLoop ([envMgmFail] ++ envDenied :: [envMgmFail])).2.2 = [envMgmFail].length + 1 :=
  C7_permission_denied [envMgmFail] [envMgmFail] envDenied (by decide) rfl rfl rfl rfl

/-! ## C8: root-zone host fallback ordering in updateMux -/

/-- The registration loop introduces no deregistration events. -/
lemma muxFirstLoop_no_dereg (mus : List MuxUpdate) :
    ∀ (oldMap newMap : List (String × Handler)) (evs : List DNSEvent) (d : String),
      DNSEvent.deregisterMux d ∉ evs →
      DNSEvent.deregisterMux d ∉ (muxFirstLoop oldMap newMap evs mus).2 := by
  induction mus with
  | nil => intro oldMap newMap evs d h; exact h
  | cons u rest ih =>
    intro oldMap newMap evs d h
    refine ih oldMap _ _ d ?_
    intro hmem
    rcases List.mem_append.mp hmem with hmem | hmem
    · rcases List.mem_append.mp hmem with hmem | hmem
      · exact h hmem
      · simp at hmem
    · cases hh : lookupA u.domain oldMap with
      | some hh2 => rw [hh] at hmem; simp at hmem
      | none => rw [hh] at hmem; simp at hmem

/-- Keys absent from the candidate updates stay absent from the fresh map. -/
lemma muxFirstLoop_lookup_none (mus : List MuxUpdate) :
    ∀ (oldMap newMap : List (String × Handler)) (evs : List DNSEvent) (k : String),
      (∀ mu ∈ mus, mu.domain ≠ k) → lookupA k newMap = none →
      lookupA k (muxFirstLoop oldMap newMap evs mus).1 = none := by
  induction mus with
  | nil => intro _ _ _ _ _ h0; exact h0
  | cons u rest ih =>
    intro oldMap newMap evs k hk h0
    refine ih oldMap _ _ k (fun mu hmu => hk mu (List.mem_cons_of_mem _ hmu)) ?_
    rw [lookupA_insertA]
    rw [if_neg (hk u (List.mem_cons_self _ _))]
    exact h0

/-- A key carried by some candidate update is present in the fresh map. -/
lemma muxFirstLoop_lookup_isSome (mus : List MuxUpdate) :
    ∀ (oldMap newMap : List (String × Handler)) (evs : List DNSEvent) (k : String),
      (∃ mu ∈ mus, mu.domain = k) ∨ (lookupA k newMap).isSome = true →
      (lookupA k (muxFirstLoop oldMap newMap evs mus).1).isSome = true := by
  induction mus with
  | nil =>
    intro _ _ _ _ h
    rcases h with ⟨mu, hmu, _⟩ | h
    · simp at hmu
    · exact h
  | cons u rest ih =>
    intro oldMap newMap evs k h
    refine ih oldMap _ _ k ?_
    rcases h with ⟨mu, hmu, hdom⟩ | h
    · rcases List.mem_cons.mp hmu with rfl | hmu'
      · right
        rw [lookupA_insertA, if_pos hdom]
        rfl
      · exact Or.inl ⟨mu, hmu', hdom⟩
    · right
      rw [lookupA_insertA]
      by_cases hud : u.domain = k
      · rw [if_pos hud]; rfl
      · rw [if_neg hud]; exact h

/-- Step equation: an old entry still in the fresh map is skipped. -/
lemma muxSecondLoop_cons_skip {nm : List (String × Handler)} {k : String}
    (h1 : (lookupA k nm).isSome = true) (h : Handler) (cr : Bool) (host : List String)
    (nid : Nat) (evs : List DNSEvent) (rest : List (String × Handler)) :
    muxSecondLoop nm cr host nid evs ((k, h) :: rest) =
      muxSecondLoop nm cr host nid evs rest := by
  simp [muxSecondLoop, h1]

/-- Step equation: a stale root entry with no candidate root triggers the
host fallback: register the replacement, then stop the old handler. -/
lemma muxSecondLoop_cons_root {nm : List (String × Handler)}
    (h1 : (lookupA RootZone nm).isSome = false) (h : Handler) (host : List String)
    (nid : Nat) (evs : List DNSEvent) (rest : List (String × Handler)) :
    muxSecondLoop nm false host nid evs ((RootZone, h) :: rest) =
      muxSecondLoop nm false host (nid + 1)
        (evs ++ [DNSEvent.registerMux RootZone (Handler.upstream nid (hostRootServers host)),
          DNSEvent.stopHandler h]) rest := by
  simp [muxSecondLoop, h1]

/-- Step equation: any other stale entry is stopped and deregistered. -/
lemma muxSecondLoop_cons_dereg {nm : List (String × Handler)} {k : String} {cr : Bool}
    (h1 : (lookupA k nm).isSome = false) (h2 : ¬(¬cr = true ∧ k = RootZone)) (h : Handler)
    (host : List String) (nid : Nat) (evs : List DNSEvent) (rest : List (String × Handler)) :
    muxSecondLoop nm cr host nid evs ((k, h) :: rest) =
      muxSecondLoop nm cr host nid
        (evs ++ [DNSEvent.stopHandler h, DNSEvent.deregisterMux k]) rest := by
  have h2n : ¬(cr = false ∧ k = RootZone) := by simpa using h2
  simp [muxSecondLoop, h1, h2n]

/-- The cleanup loop accumulates its events on the left. -/
lemma muxSecondLoop_events (entries : List (String × Handler)) :
    ∀ (nm : List (String × Handler)) (cr : Bool) (host : List String) (nid : Nat)
      (evs : List DNSEvent),
      (muxSecondLoop nm cr host nid evs entries).1 =
        evs ++ (muxSecondLoop nm cr host nid [] entries).1 := by
  induction entries with
  | nil => intro nm cr host nid evs; simp [muxSecondLoop]
  | cons p rest ih =>
    obtain ⟨k, h⟩ := p
    intro nm cr host nid evs
    cases h1 : (lookupA k nm).isSome with
    | true => rw [muxSecondLoop_cons_skip h1, muxSecondLoop_cons_skip h1, ih]
    | false =>
      by_cases h2 : ¬cr = true ∧ k = RootZone
      · obtain ⟨h2a, h2b⟩ := h2
        have hcr : cr = false := by
          cases cr
          · rfl
          · exact absurd rfl h2a
        subst h2b
        subst hcr
        rw [muxSecondLoop_cons_root h1, muxSecondLoop_cons_root h1,
          ih nm false host (nid + 1)
            (evs ++ [DNSEvent.registerMux RootZone (Handler.upstream nid (hostRootServers host)),
              DNSEvent.stopHandler h]),
          ih nm false host (nid + 1)
            ([] ++ [DNSEvent.registerMux RootZone (Handler.upstream nid (hostRootServers host)),
              DNSEvent.stopHandler h])]
        simp
      · rw [muxSecondLoop_cons_dereg h1 h2, muxSecondLoop_cons_dereg h1 h2,
          ih nm cr host nid (evs ++ [DNSEvent.stopHandler h, DNSEvent.deregisterMux k]),
          ih nm cr host nid ([] ++ [DNSEvent.stopHandler h, DNSEvent.deregisterMux k])]
        simp

/-- The cleanup loop never deregisters the root zone, provided the root is
either absent from the candidate set (fallback branch) or present in the
fresh map (skip branch). -/
lemma muxSecondLoop_no_dereg_root (entries : List (String × Handler)) :
    ∀ (nm : List (String × Handler)) (cr : Bool) (host : List String) (nid : Nat),
      (cr = false ∨ (lookupA RootZone nm).isSome = true) →
      DNSEvent.deregisterMux RootZone ∉ (muxSecondLoop nm cr host nid [] entries).1 := by
  induction entries with
  | nil => intro nm cr host nid _ hmem; simp [muxSecondLoop] at hmem
  | cons p rest ih =>
    obtain ⟨k, h⟩ := p
    intro nm cr host nid hside hmem
    cases h1 : (lookupA k nm).isSome with
    | true =>
      rw [muxSecondLoop_cons_skip h1] at hmem
      exact ih nm cr host nid hside hmem
    | false =>
      by_cases h2 : ¬cr = true ∧ k = RootZone
      · obtain ⟨h2a, h2b⟩ := h2
        have hcr : cr = false := by
          cases cr
          · rfl
          · exact absurd rfl h2a
        subst h2b
        subst hcr
        rw [muxSecondLoop_cons_root h1, muxSecondLoop_events] at hmem
        rcases List.mem_append.mp hmem with hmem | hmem
        · simp at hmem
        · exact ih nm false host (nid + 1) (Or.inl rfl) hmem
      · have hkr : k ≠ RootZone := by
          intro hk
          rcases hside with hcr | hnm
          · exact h2 ⟨by simp [hcr], hk⟩
          · rw [hk] at h1
            rw [hnm] at h1
            cases h1
        rw [muxSecondLoop_cons_dereg h1 h2, muxSecondLoop_events] at hmem
        rcases List.mem_append.mp hmem with hmem | hmem
        · simp at hmem
          exact hkr hmem.symm
        · exact ih nm cr host nid hside hmem

/-- When the cleanup loop reaches the first root entry with the root absent
from both the candidate set and the fresh map, it registers a host-fallback
root upstream (with the current fresh id) immediately before stopping the old
root handler. -/
lemma muxSecondLoop_root_fallback (l1 : List (String × Handler)) :
    ∀ (l2 : List (String × Handler)) (nm : List (String × Handler)) (host : List String)
      (nid : Nat) (h0 : Handler),
      (∀ p ∈ l1, p.1 ≠ RootZone) → lookupA RootZone nm = none →
      ∃ pre post,
        (muxSecondLoop nm false host nid [] (l1 ++ (RootZone, h0) :: l2)).1 =
          pre ++ DNSEvent.registerMux RootZone (Handler.upstream nid (hostRootServers host)) ::
            DNSEvent.stopHandler h0 :: post := by
  induction l1 with
  | nil =>
    intro l2 nm host nid h0 _ hnm
    have h1 : (lookupA RootZone nm).isSome = false := by rw [hnm]; rfl
    refine ⟨[], (muxSecondLoop nm false host (nid + 1) [] l2).1, ?_⟩
    rw [List.nil_append, muxSecondLoop_cons_root h1, muxSecondLoop_events]
    simp
  | cons p t ih =>
    obtain ⟨k, h⟩ := p
    intro l2 nm host nid h0 hl1 hnm
    have hkr : k ≠ RootZone := hl1 (k, h) (List.mem_cons_self _ _)
    have hl1t : ∀ q ∈ t, q.1 ≠ RootZone := fun q hq => hl1 q (List.mem_cons_of_mem _ hq)
    cases h1 : (lookupA k nm).isSome with
    | true =>
      rw [List.cons_append, muxSecondLoop_cons_skip h1]
      exact ih l2 nm host nid h0 hl1t hnm
    | false =>
      have h2 : ¬(¬false = true ∧ k = RootZone) := fun hc => hkr hc.2
      rw [List.cons_append, muxSecondLoop_cons_dereg h1 h2, muxSecondLoop_events]
      obtain ⟨pre, post, hpp⟩ := ih l2 nm host nid h0 hl1t hnm
      refine ⟨[DNSEvent.stopHandler h, DNSEvent.deregisterMux k] ++ pre, post, ?_⟩
      rw [hpp]
      simp

/-- Splitting an association list at the binding its lookup finds. -/
lemma lookupA_split {α : Type} (k : String) (l : List (String × α)) (v : α)
    (h : lookupA k l = some v) :
    ∃ l1 l2, l = l1 ++ (k, v) :: l2 ∧ ∀ p ∈ l1, p.1 ≠ k := by
  induction l with
  | nil => simp [lookupA] at h
  | cons p t ih =>
    obtain ⟨pk, pv⟩ := p
    by_cases hpk : pk = k
    · rw [show lookupA k ((pk, pv) :: t) = some pv by simp [lookupA, hpk]] at h
      cases h
      exact ⟨[], t, by simp [hpk], by simp⟩
    · rw [show lookupA k ((pk, pv) :: t) = lookupA k t by simp [lookupA, hpk]] at h
      obtain ⟨l1, l2, heq, hne⟩ := ih h
      refine ⟨(pk, pv) :: l1, l2, by rw [heq]; rfl, ?_⟩
      intro q hq
      rcases List.mem_cons.mp hq with rfl | hq'
      · exact hpk
      · exact hne q hq'

/-- C8: when the root zone has a registered handler and the candidate set of
a mux update contains no root entry, the event trace registers a replacement
root upstream built from the host's own DNS addresses immediately before
stopping the old root handler; and no `updateMux` call ever deregisters the
root zone from the multiplexer. -/
theorem C8_root_fallback_order (s : DefaultServer) (mus : List MuxUpdate) (h0 : Handler)
    (hroot : lookupA RootZone s.dnsMuxMap = some h0)
    (habs : ∀ mu ∈ mus, mu.domain ≠ RootZone) :
    (∃ pre post,
      (updateMux s mus).2 =
        pre ++ DNSEvent.registerMux RootZone
            (Handler.upstream s.nextHandlerId (hostRootServers s.hostsDnsList)) ::
          DNSEvent.stopHandler h0 :: post) ∧
    (∀ (s2 : DefaultServer) (mus2 : List MuxUpdate),
      DNSEvent.deregisterMux RootZone ∉ (updateMux s2 mus2).2) := by
  constructor
  · have hcr : (mus.any (fun u => u.domain = RootZone)) = false := by
      rw [List.any_eq_false]
      intro mu hmu
      simp [habs mu hmu]
    have hnone : lookupA RootZone (muxFirstLoop s.dnsMuxMap [] [] mus).1 = none :=
      muxFirstLoop_lookup_none mus s.dnsMuxMap [] [] RootZone habs rfl
    obtain ⟨l1, l2, hsplit, hl1⟩ := lookupA_split RootZone s.dnsMuxMap h0 hroot
    show ∃ pre post, (muxFirstLoop s.dnsMuxMap [] [] mus).2 ++
        (muxSecondLoop (muxFirstLoop s.dnsMuxMap [] [] mus).1
          (mus.any (fun u => u.domain = RootZone)) s.hostsDnsList s.nextHandlerId []
          s.dnsMuxMap).1 = _
    rw [hcr]
    obtain ⟨pre, post, hpp⟩ :=
      muxSecondLoop_root_fallback l1 l2 (muxFirstLoop s.dnsMuxMap [] [] mus).1
        s.hostsDnsList s.nextHandlerId h0 hl1 hnone
    rw [← hsplit] at hpp
    refine ⟨(muxFirstLoop s.dnsMuxMap [] [] mus).2 ++ pre, post, ?_⟩
    rw [hpp]
    simp
  · intro s2 mus2 hmem
    have hsplit : (updateMux s2 mus2).2 =
        (muxFirstLoop s2.dnsMuxMap [] [] mus2).2 ++
        (muxSecondLoop (muxFirstLoop s2.dnsMuxMap [] [] mus2).1
          (mus2.any (fun u => u.domain = RootZone)) s2.hostsDnsList s2.nextHandlerId []
          s2.dnsMuxMap).1 := rfl
    rw [hsplit] at hmem
    rcases List.mem_append.mp hmem with hmem | hmem
    · exact muxFirstLoop_no_dereg mus2 s2.dnsMuxMap [] [] RootZone (by simp) hmem
    · refine muxSecondLoop_no_dereg_root s2.dnsMuxMap _ _ _ _ ?_ hmem
      cases hcr2 : (mus2.any (fun u => u.domain = RootZone)) with
      | false => exact Or.inl rfl
      | true =>
        refine Or.inr (muxFirstLoop_lookup_isSome mus2 s2.dnsMuxMap [] [] RootZone ?_)
        obtain ⟨mu, hmu, hdom⟩ := List.any_eq_true.mp hcr2
        exact Or.inl ⟨mu, hmu, by simpa using hdom⟩

/-- A server fixture with a registered root handler and host DNS list. -/
def exSrvRoot : DefaultServer :=
  { exSrv with
    dnsMuxMap := [(RootZone, Handler.upstream 99 ["9.9.9.9:53"])],
    hostsDnsList := ["8.8.8.8"] }

/-- C8 witness: the fallback-before-stop ordering on a concrete mux update. -/
theorem C8_root_fallback_order_witness :
    (∃ pre post,
      (updateMux exSrvRoot [MuxUpdate.mk "corp.example." Handler.localR]).2 =
        pre ++ DNSEvent.registerMux RootZone
            (Handler.upstream exSrvRoot.nextHandlerId (hostRootServers exSrvRoot.hostsDnsList)) ::
          DNSEvent.stopHandler (Handler.upstream 99 ["9.9.9.9:53"]) :: post) ∧
    (∀ (s2 : DefaultServer) (mus2 : List MuxUpdate),
      DNSEvent.deregisterMux RootZone ∉ (updateMux s2 mus2).2) :=
  C8_root_fallback_order exSrvRoot [MuxUpdate.mk "corp.example." Handler.localR]
    (Handler.upstream 99 ["9.9.9.9:53"]) rfl (by decide)

end NetBird
